import Mathlib

/-!
# Verification of the joatmon filesystem-safety primitives

A shallow embedding of the `joatmon` Rust library's core subsystem:
safe file creation/writing (`src/fs/write.rs`), timestamped backups
(`src/fs/backup.rs`, `src/fs/paths.rs`), classified file reads
(`src/fs/read.rs`), sentinel search (`src/fs/find.rs`) and the
format-reader error taxonomy (`src/formats/{json,yaml,toml}.rs`,
`src/error.rs`).

Paths are modelled as an absolute-flag plus a list of normal (Unicode)
components; the filesystem is an association list from paths to entries
(directory, or file with byte contents and a readability bit).  Stateful
operations pass the filesystem explicitly and return it alongside an
`Except`-style result.  The host OS primitives (`open` with
`O_CREAT|O_EXCL`, `create_dir_all`, `read`, `copy`, UTF-8 validation)
are modelled on this filesystem with their documented POSIX semantics;
the library functions are translated statement-by-statement from the
Rust source.
-/

namespace Joatmon

/-- Model of `std::path::Path` / `PathBuf`: an absolute-path flag plus the
list of normal components.  (`/a/b` is `⟨true, ["a", "b"]⟩`, the empty
relative path is `⟨false, []⟩`, the root `/` is `⟨true, []⟩`.) -/
structure RPath where
  absolute : Bool
  comps : List String
deriving DecidableEq, Repr

/-- `Path::join` with a single normal component. -/
def RPath.push (p : RPath) (name : String) : RPath :=
  ⟨p.absolute, p.comps ++ [name]⟩

/-- `Path::parent`: `None` for `/` and for the empty path, otherwise the
path with the last component removed. -/
def RPath.parent? (p : RPath) : Option RPath :=
  if p.comps.isEmpty then none else some ⟨p.absolute, p.comps.dropLast⟩

/-- `PathBuf::pop` (as used by `ensure_dir`): drop the last component,
keeping the path unchanged when there is none. -/
def RPath.popLast (p : RPath) : RPath :=
  ⟨p.absolute, p.comps.dropLast⟩

/-- `Path::file_name`: the last normal component. -/
def RPath.fileName? (p : RPath) : Option String :=
  p.comps.getLast?

/-- Index of the last `'.'` in a file name, if any. -/
def lastDotIdx (cs : List Char) : Option Nat :=
  ((List.range cs.length).filter (fun i => cs.get? i = some '.')).getLast?

/-- Split a file name into stem and extension, per Rust's
`Path::file_stem` / `Path::extension`: the split point is the last `'.'`,
except that a `'.'` at position 0 does not count. -/
def splitStemExt (s : String) : String × Option String :=
  let cs := s.toList
  match lastDotIdx cs with
  | some i => if i = 0 then (s, none) else (⟨cs.take i⟩, some ⟨cs.drop (i + 1)⟩)
  | none => (s, none)

/-- `Path::file_stem`. -/
def RPath.fileStem? (p : RPath) : Option String :=
  p.fileName?.map (fun n => (splitStemExt n).1)

/-- `Path::extension`. -/
def RPath.extension? (p : RPath) : Option String :=
  p.fileName?.bind (fun n => (splitStemExt n).2)

/-- `Path::with_file_name`: pop the file name (when there is one) and
push the replacement. -/
def RPath.withFileName (p : RPath) (name : String) : RPath :=
  ⟨p.absolute, (if p.comps.isEmpty then p.comps else p.comps.dropLast) ++ [name]⟩

/-- Display form of a path (Unix convention), model of
`Path::display` / `path_to_str` from `src/fs/paths.rs`. -/
def pathToStr (p : RPath) : String :=
  (if p.absolute then "/" else "") ++ String.intercalate "/" p.comps

/-- `label_file_name` from `src/fs/paths.rs`: build
`<stem>-<label>[.<ext>]` and substitute it for the file name; `None`
when the path has no file stem. -/
def label_file_name (p : RPath) (label : String) : Option RPath :=
  match p.fileStem? with
  | none => none
  | some stem =>
    match p.extension? with
    | some e => some (p.withFileName (stem ++ "-" ++ label ++ "." ++ e))
    | none => some (p.withFileName (stem ++ "-" ++ label))

/-- A UTC instant at millisecond precision, model of
`chrono::DateTime<Utc>`. -/
structure DT where
  year : Nat
  month : Nat
  day : Nat
  hour : Nat
  minute : Nat
  second : Nat
  millisecond : Nat
deriving DecidableEq, Repr

/-- Accumulator-style decimal rendering (fuel-based so that it reduces
by structural recursion; `fuel = n + 1` always suffices). -/
def natDigitsAux : Nat → Nat → List Char → List Char
  | 0, _, acc => acc
  | fuel + 1, n, acc =>
    if n < 10 then Char.ofNat (48 + n) :: acc
    else natDigitsAux fuel (n / 10) (Char.ofNat (48 + n % 10) :: acc)

/-- Decimal digits of `n`, most significant first. -/
def natDigits (n : Nat) : List Char :=
  natDigitsAux (n + 1) n []

/-- Zero-pad a digit string on the left to width `w`. -/
def padZeros (w : Nat) (cs : List Char) : List Char :=
  List.replicate (w - cs.length) '0' ++ cs

/-- Model of `DateTime::<Utc>::to_rfc3339_opts(SecondsFormat::Millis, true)`
for in-range dates with at most four-digit years:
`YYYY-MM-DDTHH:MM:SS.mmmZ`. -/
def toRfc3339Millis (dt : DT) : List Char :=
  padZeros 4 (natDigits dt.year) ++ ['-'] ++
    padZeros 2 (natDigits dt.month) ++ ['-'] ++
    padZeros 2 (natDigits dt.day) ++ ['T'] ++
    padZeros 2 (natDigits dt.hour) ++ [':'] ++
    padZeros 2 (natDigits dt.minute) ++ [':'] ++
    padZeros 2 (natDigits dt.second) ++ ['.'] ++
    padZeros 3 (natDigits dt.millisecond) ++ ['Z']

/-- Is `c` one of the separators stripped by `file_name_safe_timestamp`? -/
def isSepChar (c : Char) : Bool :=
  c = '-' || c = ':' || c = '.'

/-- `file_name_safe_timestamp` from `src/fs/paths.rs`: RFC 3339 at
millisecond precision with every `'-'`, `':'`, `'.'` removed. -/
def file_name_safe_timestamp (dt : DT) : String :=
  ⟨(toRfc3339Millis dt).filter (fun c => !isSepChar c)⟩

/-- The separator-free timestamp label, written out directly. -/
def timestampLabel (dt : DT) : List Char :=
  padZeros 4 (natDigits dt.year) ++ padZeros 2 (natDigits dt.month) ++
    padZeros 2 (natDigits dt.day) ++ ['T'] ++ padZeros 2 (natDigits dt.hour) ++
    padZeros 2 (natDigits dt.minute) ++ padZeros 2 (natDigits dt.second) ++
    padZeros 3 (natDigits dt.millisecond) ++ ['Z']

/-! ## Filesystem model -/

/-- Contents and read permission of a regular file; a Rust `String` is
identified with its UTF-8 byte sequence. -/
structure FileData where
  bytes : List Nat
  readable : Bool
deriving DecidableEq, Repr

/-- A filesystem entry: a directory or a regular file. -/
inductive Entry where
  | dir : Entry
  | file (d : FileData) : Entry
deriving DecidableEq, Repr

/-- The filesystem: an association list from paths to entries (the first
binding for a path wins). -/
def FS := List (RPath × Entry)

instance : DecidableEq FS := by unfold FS; infer_instance

instance {ε α : Type} [DecidableEq ε] [DecidableEq α] : DecidableEq (Except ε α) :=
  fun x y =>
    match x, y with
    | .error e, .error e' =>
      if h : e = e' then .isTrue (by rw [h])
      else .isFalse (by intro hh; cases hh; exact h rfl)
    | .ok a, .ok b =>
      if h : a = b then .isTrue (by rw [h])
      else .isFalse (by intro hh; cases hh; exact h rfl)
    | .error _, .ok _ => .isFalse (by intro hh; cases hh)
    | .ok _, .error _ => .isFalse (by intro hh; cases hh)

/-- Look up the entry at `p`. -/
def FS.findEntry (fs : FS) (p : RPath) : Option Entry :=
  (List.find? (fun e => decide (e.1 = p)) fs).map (·.2)

/-- Bind `p` to `e` (shadowing any previous binding). -/
def FS.insertEntry (fs : FS) (p : RPath) (e : Entry) : FS :=
  (p, e) :: fs

/-- `Path::is_file` (via `fs::metadata`): an existing regular file. -/
def isFileFS (fs : FS) (p : RPath) : Bool :=
  match fs.findEntry p with
  | some (.file _) => true
  | _ => false

/-- `Path::is_dir`: an existing directory. -/
def isDirFS (fs : FS) (p : RPath) : Bool :=
  fs.findEntry p = some .dir

/-- Does a directory exist at `p` for the purpose of path resolution?
The component-less paths (`/` and the process working directory) always
resolve to directories. -/
def resolvesAsDir (fs : FS) (p : RPath) : Bool :=
  p.comps.isEmpty || isDirFS fs p

/-- POSIX `ErrorKind`s relevant to this library (model of
`std::io::ErrorKind`). -/
inductive IOErrorKind where
  | notFound
  | alreadyExists
  | isADirectory
  | permissionDenied
  | invalidData
deriving DecidableEq, Repr

/-- Display string of a `std::io::Error` with the given kind (Linux
strerror text; contains no file path). -/
def ioErrorDisplay : IOErrorKind → String
  | .notFound => "No such file or directory (os error 2)"
  | .alreadyExists => "File exists (os error 17)"
  | .isADirectory => "Is a directory (os error 21)"
  | .permissionDenied => "Permission denied (os error 13)"
  | .invalidData => "stream did not contain valid UTF-8"

/-! ### OS primitives

Models of the `std::fs` calls the library makes, with their POSIX
semantics over the association-list filesystem.  Mutating primitives
return the (possibly updated) filesystem alongside the result. -/

/-- Is `0x80 ≤ b ≤ 0xBF` (UTF-8 continuation byte)? -/
def isCont (b : Nat) : Bool := 0x80 ≤ b && b ≤ 0xBF

/-- UTF-8 validity (model of the check done by `read_to_string`):
the standard table, rejecting overlong forms and surrogates. -/
def validUtf8 : List Nat → Bool
  | [] => true
  | b :: rest =>
    if b ≤ 0x7F then validUtf8 rest
    else if 0xC2 ≤ b && b ≤ 0xDF then
      match rest with
      | c1 :: r => isCont c1 && validUtf8 r
      | [] => false
    else if 0xE0 ≤ b && b ≤ 0xEF then
      match rest with
      | c1 :: c2 :: r =>
        (if b = 0xE0 then 0xA0 ≤ c1 && c1 ≤ 0xBF
         else if b = 0xED then 0x80 ≤ c1 && c1 ≤ 0x9F
         else isCont c1) && isCont c2 && validUtf8 r
      | _ => false
    else if 0xF0 ≤ b && b ≤ 0xF4 then
      match rest with
      | c1 :: c2 :: c3 :: r =>
        (if b = 0xF0 then 0x90 ≤ c1 && c1 ≤ 0xBF
         else if b = 0xF4 then 0x80 ≤ c1 && c1 ≤ 0x8F
         else isCont c1) && isCont c2 && isCont c3 && validUtf8 r
      | _ => false
    else false

/-- `OpenOptions::new().write(true).create_new(true).open(p)`:
exclusive create.  Path resolution fails first when the parent is not an
existing directory; then `O_EXCL` fails if anything exists at `p`;
otherwise an empty file is created. -/
def osCreateNew (fs : FS) (p : RPath) : Except IOErrorKind Unit × FS :=
  match p.parent? with
  | none => (.error .notFound, fs)
  | some d =>
    if !resolvesAsDir fs d then (.error .notFound, fs)
    else
      match fs.findEntry p with
      | some _ => (.error .alreadyExists, fs)
      | none => (.ok (), fs.insertEntry p (.file ⟨[], true⟩))

/-- `OpenOptions::new().write(true).create(true).open(p)`: create
without truncation.  Opening an existing directory for writing fails
with `EISDIR`; an existing file is left untouched (no truncate flag). -/
def osOpenWriteCreate (fs : FS) (p : RPath) : Except IOErrorKind Unit × FS :=
  match p.parent? with
  | none => (.error .isADirectory, fs)
  | some d =>
    if !resolvesAsDir fs d then (.error .notFound, fs)
    else
      match fs.findEntry p with
      | some .dir => (.error .isADirectory, fs)
      | some (.file _) => (.ok (), fs)
      | none => (.ok (), fs.insertEntry p (.file ⟨[], true⟩))

/-- `File::write_all` on a handle freshly opened at position 0 without
truncation: the first `c.length` bytes are overwritten, any longer tail
is kept. -/
def osWriteAt0 (fs : FS) (p : RPath) (c : List Nat) : FS :=
  match fs.findEntry p with
  | some (.file d) => fs.insertEntry p (.file ⟨c ++ d.bytes.drop c.length, d.readable⟩)
  | _ => fs

/-- `std::fs::write(p, c)`: open with create + truncate, then write all
bytes. -/
def osWriteFile (fs : FS) (p : RPath) (c : List Nat) : Except IOErrorKind Unit × FS :=
  match p.parent? with
  | none => (.error .isADirectory, fs)
  | some d =>
    if !resolvesAsDir fs d then (.error .notFound, fs)
    else
      match fs.findEntry p with
      | some .dir => (.error .isADirectory, fs)
      | some (.file dd) => (.ok (), fs.insertEntry p (.file ⟨c, dd.readable⟩))
      | none => (.ok (), fs.insertEntry p (.file ⟨c, true⟩))

/-- `std::fs::read(p)`: the whole byte contents in one shot. -/
def osReadBytes (fs : FS) (p : RPath) : Except IOErrorKind (List Nat) :=
  match fs.findEntry p with
  | none => .error .notFound
  | some .dir => .error .isADirectory
  | some (.file d) => if !d.readable then .error .permissionDenied else .ok d.bytes

/-- `std::fs::read_to_string(p)`: read the bytes, then require valid
UTF-8 (the resulting Rust `String` is identified with its bytes). -/
def osReadToString (fs : FS) (p : RPath) : Except IOErrorKind (List Nat) :=
  match osReadBytes fs p with
  | .error e => .error e
  | .ok bs => if !validUtf8 bs then .error .invalidData else .ok bs

/-- `std::fs::copy(src, dst)`: read `src`, then create/truncate `dst`
and write the bytes, also transferring the permission bits. -/
def osCopy (fs : FS) (src dst : RPath) : Except IOErrorKind Unit × FS :=
  match fs.findEntry src with
  | none => (.error .notFound, fs)
  | some .dir => (.error .isADirectory, fs)
  | some (.file d) =>
    if !d.readable then (.error .permissionDenied, fs)
    else
      match dst.parent? with
      | none => (.error .isADirectory, fs)
      | some pd =>
        if !resolvesAsDir fs pd then (.error .notFound, fs)
        else
          match fs.findEntry dst with
          | some .dir => (.error .isADirectory, fs)
          | _ => (.ok (), fs.insertEntry dst (.file d))

/-- One level of `create_dir_all`: create `base ++ [n]` for each
successive component, tolerating existing directories and failing on an
existing non-directory. -/
def createDirsFrom (fs : FS) (ab : Bool) (base : List String) :
    List String → Except IOErrorKind Unit × FS
  | [] => (.ok (), fs)
  | n :: rest =>
    match fs.findEntry ⟨ab, base ++ [n]⟩ with
    | some .dir => createDirsFrom fs ab (base ++ [n]) rest
    | some (.file _) => (.error .alreadyExists, fs)
    | none => createDirsFrom (fs.insertEntry ⟨ab, base ++ [n]⟩ .dir) ab (base ++ [n]) rest

/-- `std::fs::create_dir_all(p)`: recursively create the directory chain
(`Ok` on the empty path and on `/`); directories created before a
failure persist. -/
def osCreateDirAll (fs : FS) (p : RPath) : Except IOErrorKind Unit × FS :=
  createDirsFrom fs p.absolute [] p.comps

/-! ## Error taxonomy (`src/error.rs`, `src/fs/read.rs`, `src/fs/write.rs`) -/

/-- `FileReadErrorKind` from `src/fs/read.rs`. -/
inductive FileReadErrorKind where
  | isADirectory
  | notFound
  | other
deriving DecidableEq, Repr

/-- `FileReadError` (its private `FileReadErrorImpl` variants); the
`Other` variant wraps the untranslated `std::io::Error`, the only cause
type `FileReadError::other` is applied to in `read.rs`. -/
inductive FileReadError where
  | isADirectory (p : RPath)
  | notFound (p : RPath)
  | other (e : IOErrorKind)
deriving DecidableEq, Repr

/-- `FileReadError::kind`. -/
def FileReadError.kind : FileReadError → FileReadErrorKind
  | .isADirectory _ => .isADirectory
  | .notFound _ => .notFound
  | .other _ => .other

/-- `FileReadError::is_not_found`. -/
def FileReadError.isNotFound (e : FileReadError) : Bool :=
  e.kind = FileReadErrorKind.notFound

/-- `FileReadError::convert` (non-Windows branch: the "is a directory"
test is a match on the unstable `ErrorKind::IsADirectory` debug
string). -/
def FileReadError.convert (e : IOErrorKind) (p : RPath) : FileReadError :=
  if e = .isADirectory then .isADirectory p
  else if e = .notFound then .notFound p
  else .other e

/-- Display of `FileReadErrorImpl` (`thiserror` format strings). -/
def FileReadError.display : FileReadError → String
  | .isADirectory p => "File system object " ++ pathToStr p ++ " is a directory not a file"
  | .notFound p => "File " ++ pathToStr p ++ " not found"
  | .other e => ioErrorDisplay e

/-- `read_text_file` from `src/fs/read.rs`. -/
def read_text_file (fs : FS) (p : RPath) : Except FileReadError (List Nat) :=
  match osReadToString fs p with
  | .ok s => .ok s
  | .error e => .error (FileReadError.convert e p)

/-- `read_bytes` from `src/fs/read.rs`. -/
def read_bytes (fs : FS) (p : RPath) : Except FileReadError (List Nat) :=
  match osReadBytes fs p with
  | .ok s => .ok s
  | .error e => .error (FileReadError.convert e p)

/-- The concrete Rust types that can sit behind an `anyhow::Error` in
this library, plus `FileNotFoundError`, the type named by the spec's §8
(no such type exists in the crate, so no wrapped value ever has it). -/
inductive RustType where
  | tIOErr
  | tFileReadError
  | tFileNotFoundError
deriving DecidableEq, Repr

/-- A type-erased wrapped cause (`anyhow::Error`): a payload tagged with
its concrete Rust type, recoverable only by a matching downcast. -/
inductive AnyErr where
  | aIoErr (e : IOErrorKind)
  | aFileRead (e : FileReadError)
deriving DecidableEq, Repr

/-- `TypeId` of the value inside the `anyhow::Error`. -/
def AnyErr.typeOf : AnyErr → RustType
  | .aIoErr _ => .tIOErr
  | .aFileRead _ => .tFileReadError

/-- Transparent display of the wrapped cause. -/
def AnyErr.display : AnyErr → String
  | .aIoErr e => ioErrorDisplay e
  | .aFileRead e => e.display

/-- `FileWriteErrorKind` from `src/fs/write.rs`. -/
inductive FileWriteErrorKind where
  | alreadyExists
  | other
deriving DecidableEq, Repr

/-- `FileWriteError` (its private `FileWriteErrorImpl` variants). -/
inductive FileWriteError where
  | alreadyExists (p : RPath)
  | other (a : AnyErr)
deriving DecidableEq, Repr

/-- `FileWriteError::kind`. -/
def FileWriteError.kind : FileWriteError → FileWriteErrorKind
  | .alreadyExists _ => .alreadyExists
  | .other _ => .other

/-- `FileWriteError::convert`: `AlreadyExists` is classified, every
other I/O error is wrapped untouched. -/
def FileWriteError.convert (e : IOErrorKind) (p : RPath) : FileWriteError :=
  match e with
  | .alreadyExists => .alreadyExists p
  | _ => .other (.aIoErr e)

/-- Display of `FileWriteErrorImpl` (`thiserror` format strings; the
`Other` variant is `#[error(transparent)]`). -/
def FileWriteError.display : FileWriteError → String
  | .alreadyExists p => "File " ++ pathToStr p ++ " already exists"
  | .other a => a.display

/-! ## Safe writers (`src/fs/write.rs`) -/

/-- `ensure_dir` from `src/fs/write.rs`: push the whole path, pop the
file name, `create_dir_all` the rest; any failure is wrapped with
`FileWriteError::other`. -/
def ensure_dir (fs : FS) (filePath : RPath) : Except FileWriteError Unit × FS :=
  match osCreateDirAll fs filePath.popLast with
  | (.ok (), fs1) => (.ok (), fs1)
  | (.error e, fs1) => (.error (.other (.aIoErr e)), fs1)

/-- `safe_create_file` from `src/fs/write.rs`: ensure the parent chain,
then open with `create` (overwrite) or `create_new` (no overwrite); the
returned handle is identified with the path it is open at. -/
def safe_create_file (fs : FS) (p : RPath) (overwrite : Bool) :
    Except FileWriteError RPath × FS :=
  match ensure_dir fs p with
  | (.error e, fs1) => (.error e, fs1)
  | (.ok (), fs1) =>
    match (if overwrite then osOpenWriteCreate fs1 p else osCreateNew fs1 p) with
    | (.ok (), fs2) => (.ok p, fs2)
    | (.error e, fs2) => (.error (FileWriteError.convert e p), fs2)

/-- `safe_write_file` from `src/fs/write.rs`: ensure the parent chain,
then either `std::fs::write` (overwrite) or `safe_create_file` followed
by `write_all` (no overwrite). -/
def safe_write_file (fs : FS) (p : RPath) (contents : List Nat) (overwrite : Bool) :
    Except FileWriteError Unit × FS :=
  match ensure_dir fs p with
  | (.error e, fs1) => (.error e, fs1)
  | (.ok (), fs1) =>
    if overwrite then
      match osWriteFile fs1 p contents with
      | (.ok (), fs2) => (.ok (), fs2)
      | (.error e, fs2) => (.error (FileWriteError.convert e p), fs2)
    else
      match safe_create_file fs1 p overwrite with
      | (.error e, fs2) => (.error e, fs2)
      | (.ok h, fs2) => (.ok (), osWriteAt0 fs2 h contents)

/-! ## Backup generator (`src/fs/backup.rs`)

`Utc::now()` is modelled by a list of successive clock readings: the
head is the instant used for the first candidate (the `now` argument of
`safe_back_up_inner`, or the first `Utc::now()` call), and each retry
consumes the next reading.  An exhausted list models a run of the
unbounded source loop longer than the modelled clock trace (`hang`). -/

/-- Outcome of the create-exclusively retry loop. -/
inductive LoopOutcome where
  | hang
  | panic
  | ioErr (e : IOErrorKind)
  | created (q : RPath) (fs' : FS)
deriving DecidableEq

/-- Outcome of `safe_back_up`: `panic` models a failed `assert!` or
`expect`, otherwise the `IOResult` together with the final filesystem. -/
inductive BackupResult where
  | panic
  | hang
  | err (e : IOErrorKind) (fs' : FS)
  | ok (q : RPath) (fs' : FS)
deriving DecidableEq

/-- `generate_backup_path` from `src/fs/backup.rs`: assert the path is
an existing absolute file, then label its file name with the
filesystem-safe timestamp; `none` models the panic of a failed
`assert!`/`expect`. -/
def generate_backup_path (fs : FS) (p : RPath) (dt : DT) : Option RPath :=
  if isFileFS fs p && p.absolute then label_file_name p (file_name_safe_timestamp dt)
  else none

/-- The retry loop of `safe_back_up_inner`: exclusively create the
candidate; on `AlreadyExists` regenerate from the next clock reading and
retry; any other error aborts the loop. -/
def backupLoop (fs : FS) (p : RPath) : List DT → LoopOutcome
  | [] => .hang
  | t :: rest =>
    match generate_backup_path fs p t with
    | none => .panic
    | some cand =>
      match osCreateNew fs cand with
      | (.ok (), fs1) => .created cand fs1
      | (.error e, _) => if e = .alreadyExists then backupLoop fs p rest else .ioErr e

/-- `safe_back_up_inner` from `src/fs/backup.rs`: assert the
precondition, run the exclusive-create retry loop, then copy the
original's bytes into the placeholder. -/
def safe_back_up_inner (fs : FS) (p : RPath) (times : List DT) : BackupResult :=
  if !(isFileFS fs p && p.absolute) then .panic
  else
    match backupLoop fs p times with
    | .hang => .hang
    | .panic => .panic
    | .ioErr e => .err e fs
    | .created q fs1 =>
      match osCopy fs1 p q with
      | (.ok (), fs2) => .ok q fs2
      | (.error e, fs2) => .err e fs2

/-- `safe_back_up` from `src/fs/backup.rs` (`now = None`: every
candidate instant comes from the clock trace). -/
def safe_back_up (fs : FS) (p : RPath) (times : List DT) : BackupResult :=
  safe_back_up_inner fs p times

/-! ## Sentinel search (`src/fs/find.rs`) -/

/-- Wrapping decrement of an `i32` counter. -/
def decI32 (c : Int) : Int :=
  if c = -(2 ^ 31) then 2 ^ 31 - 1 else c - 1

/-- The loop of `find_sentinel_dir`: bail out when the counter hits 0,
return `dir/name` when it is a directory, else step to the parent
(returning `none` at the root) with the counter decremented. -/
def findSentinelDirLoop (fs : FS) (name : String) (d : RPath) (count : Int) :
    Option RPath :=
  if count = 0 then none
  else
    if isDirFS fs (d.push name) then some (d.push name)
    else
      if h : d.comps = [] then none
      else findSentinelDirLoop fs name d.popLast (decI32 count)
termination_by d.comps.length
decreasing_by
  simp only [RPath.popLast, List.length_dropLast]
  exact Nat.sub_lt (List.length_pos.mpr h) Nat.one_pos

/-- `find_sentinel_dir` from `src/fs/find.rs` (hop limit defaults
to 30). -/
def find_sentinel_dir (fs : FS) (name : String) (startDir : RPath)
    (limit : Option Int) : Option RPath :=
  findSentinelDirLoop fs name startDir (limit.getD 30)

/-- The loop of `find_sentinel_file`: as for directories, but the
sentinel must be a regular file. -/
def findSentinelFileLoop (fs : FS) (name : String) (d : RPath) (count : Int) :
    Option RPath :=
  if count = 0 then none
  else
    if isFileFS fs (d.push name) then some (d.push name)
    else
      if h : d.comps = [] then none
      else findSentinelFileLoop fs name d.popLast (decI32 count)
termination_by d.comps.length
decreasing_by
  simp only [RPath.popLast, List.length_dropLast]
  exact Nat.sub_lt (List.length_pos.mpr h) Nat.one_pos

/-- `find_sentinel_file` from `src/fs/find.rs`. -/
def find_sentinel_file (fs : FS) (name : String) (startDir : RPath)
    (limit : Option Int) : Option RPath :=
  findSentinelFileLoop fs name startDir (limit.getD 30)

/-! ## Format readers (`src/formats/yaml.rs`, `json.rs`, `toml.rs`)

The parsers themselves (`serde_yaml`, `serde_json`, `toml`) are external
collaborators; each reader takes the parse function as a parameter and
is modelled up to the error translation the crate performs. -/

/-- `serde_yaml::Location`. -/
structure YamlLoc where
  line : Nat
  column : Nat
deriving DecidableEq, Repr

/-- `serde_yaml::Error`, reduced to what `YamlError::convert` consumes:
its rendered message and optional location. -/
structure SerdeYamlError where
  message : String
  location : Option YamlLoc
deriving DecidableEq, Repr

/-- `YamlErrorKind` (`synt` models the Rust variant named `Syntax`). -/
inductive YamlErrorKind where
  | synt
  | other
deriving DecidableEq, Repr

/-- `YamlError` (its private `YamlErrorImpl` variants). -/
inductive YamlError where
  | synt (message : String) (location : Option YamlLoc) (path : RPath)
  | other (a : AnyErr)
deriving DecidableEq, Repr

/-- `YamlError::kind`. -/
def YamlError.kind : YamlError → YamlErrorKind
  | .synt _ _ _ => .synt
  | .other _ => .other

/-- `YamlError::convert`. -/
def YamlError.convert (e : SerdeYamlError) (p : RPath) : YamlError :=
  .synt e.message e.location p

/-- `<YamlError as HasOtherError>::downcast_other_ref::<E>` with `E`
represented by its `TypeId`: succeeds exactly on an `Other` variant
whose wrapped cause has concrete type `E`. -/
def YamlError.downcastOtherTy (e : YamlError) (t : RustType) : Option AnyErr :=
  match e with
  | .other a => if a.typeOf = t then some a else none
  | _ => none

/-- Display of `YamlErrorImpl` (`"{message} in {path}"`; `Other` is
transparent). -/
def YamlError.display : YamlError → String
  | .synt m _ p => m ++ " in " ++ pathToStr p
  | .other a => a.display

/-- `read_yaml_file` from `src/formats/yaml.rs`: read the text (wrapping
a read failure as `Other`), then parse (translating a parse failure via
`convert`). -/
def read_yaml_file {α : Type} (parse : List Nat → Except SerdeYamlError α)
    (fs : FS) (p : RPath) : Except YamlError α :=
  match read_text_file fs p with
  | .error e => .error (YamlError.other (.aFileRead e))
  | .ok s =>
    match parse s with
    | .error pe => .error (YamlError.convert pe p)
    | .ok v => .ok v

/-- `serde_json::error::Category`. -/
inductive SerdeJsonCat where
  | data
  | eof
  | ioCat
  | synt
deriving DecidableEq, Repr

/-- `serde_json::Error`, reduced to what `JsonError::convert` consumes. -/
structure SerdeJsonError where
  message : String
  category : SerdeJsonCat
deriving DecidableEq, Repr

/-- `JsonError` (its private `JsonErrorImpl` variants; `ioCat` and
`synt` model the Rust variants named `Io` and `Syntax`). -/
inductive JsonError where
  | data (message : String) (path : RPath)
  | eof (message : String) (path : RPath)
  | ioCat (message : String) (path : RPath)
  | synt (message : String) (path : RPath)
  | other (a : AnyErr)
deriving DecidableEq, Repr

/-- `JsonError::convert`: classify by the serde category. -/
def JsonError.convert (e : SerdeJsonError) (p : RPath) : JsonError :=
  match e.category with
  | .data => .data e.message p
  | .eof => .eof e.message p
  | .ioCat => .ioCat e.message p
  | .synt => .synt e.message p

/-- Display of `JsonErrorImpl` (each classified variant is
`"{message} in {path}"`; `Other` is transparent). -/
def JsonError.display : JsonError → String
  | .data m p => m ++ " in " ++ pathToStr p
  | .eof m p => m ++ " in " ++ pathToStr p
  | .ioCat m p => m ++ " in " ++ pathToStr p
  | .synt m p => m ++ " in " ++ pathToStr p
  | .other a => a.display

/-- `read_json_file` from `src/formats/json.rs`. -/
def read_json_file {α : Type} (parse : List Nat → Except SerdeJsonError α)
    (fs : FS) (p : RPath) : Except JsonError α :=
  match read_text_file fs p with
  | .error e => .error (JsonError.other (.aFileRead e))
  | .ok s =>
    match parse s with
    | .error pe => .error (JsonError.convert pe p)
    | .ok v => .ok v

/-- A byte span of a TOML parse failure. -/
structure TomlSpan where
  startPos : Nat
  endPos : Nat
deriving DecidableEq, Repr

/-- `toml::de::Error`, reduced to what `TomlError::convert` consumes. -/
structure TomlDeError where
  message : String
  span : Option TomlSpan
deriving DecidableEq, Repr

/-- `TomlError` (its private `TomlErrorImpl` variants; `synt` models the
Rust variant named `Syntax`, whose display is just `"{message}"`). -/
inductive TomlError where
  | synt (message : String) (path : RPath) (span : Option TomlSpan)
  | other (a : AnyErr)
deriving DecidableEq, Repr

/-- `TomlError::convert`: bake the span and the path into the message. -/
def TomlError.convert (e : TomlDeError) (p : RPath) : TomlError :=
  match e.span with
  | some s =>
    .synt (e.message ++ " at span " ++ ⟨natDigits s.startPos⟩ ++ ":" ++
      ⟨natDigits s.endPos⟩ ++ " in " ++ pathToStr p) p e.span
  | none => .synt (e.message ++ " in " ++ pathToStr p) p e.span

/-- Display of `TomlErrorImpl` (`"{message}"`; `Other` is
transparent). -/
def TomlError.display : TomlError → String
  | .synt m _ _ => m
  | .other a => a.display

/-- `read_toml_file` from `src/formats/toml.rs`. -/
def read_toml_file {α : Type} (parse : List Nat → Except TomlDeError α)
    (fs : FS) (p : RPath) : Except TomlError α :=
  match read_text_file fs p with
  | .error e => .error (TomlError.other (.aFileRead e))
  | .ok s =>
    match parse s with
    | .error pe => .error (TomlError.convert pe p)
    | .ok v => .ok v

/-- Every proper, nonempty initial segment of the path is an existing
directory (a real filesystem satisfies this at every path that names an
existing entry). -/
def ancestorsAreDirs (fs : FS) (p : RPath) : Prop :=
  ∀ k, 0 < k → k < p.comps.length →
    fs.findEntry ⟨p.absolute, p.comps.take k⟩ = some .dir

/-- The chain of directories the sentinel loops examine: the start
directory, its parent and so on, stopping at the root or after `k`
entries. -/
def upChain (d : RPath) : Nat → List RPath
  | 0 => []
  | k + 1 => d :: (if d.comps = [] then [] else upChain d.popLast k)

/-- Reference upward search for a sentinel directory without any hop
bound: stops only at a match or at the filesystem root. -/
def unboundedUpDir (fs : FS) (name : String) (d : RPath) : Option RPath :=
  if isDirFS fs (d.push name) then some (d.push name)
  else
    if h : d.comps = [] then none
    else unboundedUpDir fs name d.popLast
termination_by d.comps.length
decreasing_by
  simp only [RPath.popLast, List.length_dropLast]
  exact Nat.sub_lt (List.length_pos.mpr h) Nat.one_pos

/-- Reference upward search for a sentinel file without any hop bound. -/
def unboundedUpFile (fs : FS) (name : String) (d : RPath) : Option RPath :=
  if isFileFS fs (d.push name) then some (d.push name)
  else
    if h : d.comps = [] then none
    else unboundedUpFile fs name d.popLast
termination_by d.comps.length
decreasing_by
  simp only [RPath.popLast, List.length_dropLast]
  exact Nat.sub_lt (List.length_pos.mpr h) Nat.one_pos

/-- Every ancestor of `d`, from `d` itself up to the root. -/
def fullUpChain (d : RPath) : List RPath :=
  upChain d (d.comps.length + 1)

/-! ## Concrete fixtures used by the witnesses -/

/-- `/d/file.ext` containing one byte. -/
def pW6 : RPath := ⟨true, ["d", "file.ext"]⟩

/-- A filesystem holding `/d` and `/d/file.ext`. -/
def fsW6 : FS := [(⟨true, ["d"]⟩, .dir), (pW6, .file ⟨[104], true⟩)]

/-- 2019-03-17T16:43:00.000Z. -/
def dtW6 : DT := ⟨2019, 3, 17, 16, 43, 0, 0⟩

/-- A missing path under `/m`. -/
def pW4a : RPath := ⟨true, ["m", "missing.txt"]⟩

/-- The directory `/m`. -/
def pW4b : RPath := ⟨true, ["m"]⟩

/-- An unreadable file `/m/locked.dat`. -/
def pW4c : RPath := ⟨true, ["m", "locked.dat"]⟩

/-- A readable UTF-8 file `/m/hi.txt` containing "hi". -/
def pW4d : RPath := ⟨true, ["m", "hi.txt"]⟩

/-- A readable non-UTF-8 file `/m/bin.dat`. -/
def pW4e : RPath := ⟨true, ["m", "bin.dat"]⟩

/-- Filesystem exercising every branch of the read classification. -/
def fsW4 : FS :=
  [(pW4b, .dir), (pW4c, .file ⟨[7], false⟩), (pW4d, .file ⟨[104, 105], true⟩),
    (pW4e, .file ⟨[192], true⟩)]

/-- A YAML path `/cfg/app.yaml` (absent from the empty filesystem). -/
def pW7 : RPath := ⟨true, ["cfg", "app.yaml"]⟩

/-- A parse function standing in for `serde_yaml::from_str` (never
reached when the read fails). -/
def parseW7 : List Nat → Except SerdeYamlError Unit := fun _ => .ok ()

/-- `/a/b.txt`, whose parent `/a` exists as a regular file. -/
def pW8 : RPath := ⟨true, ["a", "b.txt"]⟩

/-- A filesystem where `/a` is a regular file, so `create_dir_all("/a")`
fails. -/
def fsW8 : FS := [(⟨true, ["a"]⟩, .file ⟨[], true⟩)]

/-- `/a/b.txt` for the safe-writer side-effect claims. -/
def pW9 : RPath := ⟨true, ["a", "b.txt"]⟩

/-- `/a` exists as a regular file, so `ensure_dir` fails. -/
def fsW9a : FS := [(⟨true, ["a"]⟩, .file ⟨[], true⟩)]

/-- `/a/b.txt` exists but `/a` does not (ensure_dir will create it). -/
def fsW9b : FS := [(pW9, .file ⟨[5], true⟩)]

/-- `fsW9b` after `ensure_dir` created `/a`. -/
def fs1W9b : FS := (⟨true, ["a"]⟩, .dir) :: fsW9b

/-- Start directory `/t/a/b/c` for the sentinel-walk witnesses. -/
def start5 : RPath := ⟨true, ["t", "a", "b", "c"]⟩

/-- Directory tree with `SENTINEL` exactly two hops above `start5`. -/
def fs5 : FS :=
  [(⟨true, ["t"]⟩, .dir), (⟨true, ["t", "a"]⟩, .dir),
    (⟨true, ["t", "a", "b"]⟩, .dir), (start5, .dir),
    (⟨true, ["t", "a", "SENTINEL"]⟩, .dir)]

/-- Directory tree with `SENTINEL` four hops above `start5` (at `/`). -/
def fs5b : FS :=
  [(⟨true, ["t"]⟩, .dir), (⟨true, ["t", "a"]⟩, .dir),
    (⟨true, ["t", "a", "b"]⟩, .dir), (start5, .dir),
    (⟨true, ["SENTINEL"]⟩, .dir)]

/-- Tree where the start directory `/x` itself contains the sentinel. -/
def fs10 : FS := [(⟨true, ["x"]⟩, .dir), (⟨true, ["x", "S"]⟩, .dir)]

/-- Start directory `/x` for the hop-limit edge cases. -/
def start10 : RPath := ⟨true, ["x"]⟩

/-- `/d/f.txt`, the backup source. -/
def pB : RPath := ⟨true, ["d", "f.txt"]⟩

/-- Filesystem holding `/d` and `/d/f.txt` (bytes `[1, 2]`). -/
def fsB1 : FS := [(⟨true, ["d"]⟩, .dir), (pB, .file ⟨[1, 2], true⟩)]

/-- The backup name generated from `pB` at `dtW6`. -/
def qB : RPath := ⟨true, ["d", "f-20190317T164300000Z.txt"]⟩

/-- `fsB1` after a successful backup of `pB` at `dtW6`. -/
def fsB1' : FS := (qB, .file ⟨[1, 2], true⟩) :: (qB, .file ⟨[], true⟩) :: fsB1

/-- One millisecond after `dtW6`. -/
def dtB2 : DT := ⟨2019, 3, 17, 16, 43, 0, 1⟩

/-- The backup name generated from `pB` at `dtB2`. -/
def qB2 : RPath := ⟨true, ["d", "f-20190317T164300001Z.txt"]⟩

/-- `fsB1'` after a second backup of `pB` (retried to `dtB2`). -/
def fsB2' : FS := (qB2, .file ⟨[1, 2], true⟩) :: (qB2, .file ⟨[], true⟩) :: fsB1'

/-- A filesystem where the `dtW6` candidate name is already taken. -/
def fsBcol : FS :=
  [(⟨true, ["d"]⟩, .dir), (pB, .file ⟨[1], true⟩), (qB, .file ⟨[9], true⟩)]

/-! ## Substring occurrence -/

/-- Does `sub` occur contiguously inside `hay`? -/
def occursIn (sub hay : List Char) : Bool :=
  (List.range (hay.length + 1)).any fun i => (hay.drop i).take sub.length == sub

/-- Does the string `sub` occur inside the string `hay`? -/
def strContains (sub hay : String) : Bool :=
  occursIn sub.data hay.data

attribute [irreducible] natDigits toRfc3339Millis file_name_safe_timestamp timestampLabel

theorem digitChar_not_sep (n : Nat) (h : n < 10) :
    isSepChar (Char.ofNat (48 + n)) = false := by
  interval_cases n <;> decide

theorem natDigitsAux_not_sep (fuel : Nat) :
    ∀ (n : Nat) (acc : List Char), (∀ c ∈ acc, isSepChar c = false) →
      ∀ c ∈ natDigitsAux fuel n acc, isSepChar c = false := by
  induction fuel with
  | zero => intro n acc hacc c hc; exact hacc c hc
  | succ fuel ih =>
    intro n acc hacc c hc
    rw [natDigitsAux] at hc
    by_cases h : n < 10
    · rw [if_pos h] at hc
      rcases List.mem_cons.mp hc with rfl | hmem
      · exact digitChar_not_sep n h
      · exact hacc c hmem
    · rw [if_neg h] at hc
      refine ih (n / 10) _ ?_ c hc
      intro c' hc'
      rcases List.mem_cons.mp hc' with rfl | hmem
      · exact digitChar_not_sep _ (Nat.mod_lt _ (by omega))
      · exact hacc c' hmem

theorem natDigits_not_sep (n : Nat) : ∀ c ∈ natDigits n, isSepChar c = false := by
  rw [natDigits]
  exact natDigitsAux_not_sep (n + 1) n [] (by intro c hc; cases hc)

theorem padZeros_not_sep (w : Nat) (cs : List Char)
    (h : ∀ c ∈ cs, isSepChar c = false) :
    ∀ c ∈ padZeros w cs, isSepChar c = false := by
  intro c hc
  rcases List.mem_append.mp hc with hc | hc
  · rcases List.eq_of_mem_replicate hc with rfl; decide
  · exact h c hc

theorem timestampLabel_not_sep (dt : DT) :
    ∀ c ∈ timestampLabel dt, isSepChar c = false := by
  intro c hc
  rw [timestampLabel] at hc
  simp only [List.mem_append, List.mem_singleton] at hc
  rcases hc with ((((((((h | h) | h) | h) | h) | h) | h) | h) | rfl)
  · exact padZeros_not_sep 4 _ (natDigits_not_sep dt.year) c h
  · exact padZeros_not_sep 2 _ (natDigits_not_sep dt.month) c h
  · exact padZeros_not_sep 2 _ (natDigits_not_sep dt.day) c h
  · rcases h with rfl; decide
  · exact padZeros_not_sep 2 _ (natDigits_not_sep dt.hour) c h
  · exact padZeros_not_sep 2 _ (natDigits_not_sep dt.minute) c h
  · exact padZeros_not_sep 2 _ (natDigits_not_sep dt.second) c h
  · exact padZeros_not_sep 3 _ (natDigits_not_sep dt.millisecond) c h
  · decide

theorem filter_not_sep (cs : List Char) (h : ∀ c ∈ cs, isSepChar c = false) :
    cs.filter (fun c => !isSepChar c) = cs := by
  induction cs with
  | nil => rfl
  | cons a l ih =>
    have ha : isSepChar a = false := h a (List.mem_cons_self _ _)
    rw [List.filter_cons]
    simp only [ha, Bool.not_false, if_pos]
    exact congrArg (a :: ·) (ih (fun c hc => h c (List.mem_cons_of_mem _ hc)))

theorem file_name_safe_timestamp_eq (dt : DT) :
    file_name_safe_timestamp dt = ⟨timestampLabel dt⟩ := by
  have hy := filter_not_sep _ (padZeros_not_sep 4 _ (natDigits_not_sep dt.year))
  have hmo := filter_not_sep _ (padZeros_not_sep 2 _ (natDigits_not_sep dt.month))
  have hd := filter_not_sep _ (padZeros_not_sep 2 _ (natDigits_not_sep dt.day))
  have hh := filter_not_sep _ (padZeros_not_sep 2 _ (natDigits_not_sep dt.hour))
  have hmi := filter_not_sep _ (padZeros_not_sep 2 _ (natDigits_not_sep dt.minute))
  have hs := filter_not_sep _ (padZeros_not_sep 2 _ (natDigits_not_sep dt.second))
  have hms := filter_not_sep _ (padZeros_not_sep 3 _ (natDigits_not_sep dt.millisecond))
  have hdash : List.filter (fun c => !isSepChar c) ['-'] = [] := rfl
  have hcolon : List.filter (fun c => !isSepChar c) [':'] = [] := rfl
  have hdot : List.filter (fun c => !isSepChar c) ['.'] = [] := rfl
  have ht : List.filter (fun c => !isSepChar c) ['T'] = ['T'] := rfl
  have hz : List.filter (fun c => !isSepChar c) ['Z'] = ['Z'] := rfl
  rw [file_name_safe_timestamp, toRfc3339Millis, timestampLabel]
  simp only [List.filter_append, hy, hmo, hd, hh, hmi, hs, hms, hdash, hcolon,
    hdot, ht, hz, List.append_nil, List.nil_append, List.append_assoc]

theorem occursIn_append_middle (a s b : List Char) :
    occursIn s (a ++ (s ++ b)) = true := by
  unfold occursIn
  rw [List.any_eq_true]
  refine ⟨a.length, List.mem_range.mpr ?_, ?_⟩
  · simp only [List.length_append]
    omega
  · rw [List.drop_left, List.take_left]
    exact beq_self_eq_true s

theorem occursIn_append_right (a s : List Char) : occursIn s (a ++ s) = true := by
  have h := occursIn_append_middle a s []
  rwa [List.append_nil] at h

/-! ## Basic filesystem lemmas -/

theorem findEntry_insert (fs : FS) (p q : RPath) (e : Entry) :
    (fs.insertEntry p e).findEntry q = if p = q then some e else fs.findEntry q := by
  by_cases h : p = q <;>
    simp [FS.insertEntry, FS.findEntry, List.find?, h]

theorem findEntry_insert_self (fs : FS) (p : RPath) (e : Entry) :
    (fs.insertEntry p e).findEntry p = some e := by
  rw [findEntry_insert, if_pos rfl]

theorem findEntry_insert_ne (fs : FS) (p q : RPath) (e : Entry) (h : p ≠ q) :
    (fs.insertEntry p e).findEntry q = fs.findEntry q := by
  rw [findEntry_insert, if_neg h]

/-- Specification of a successful exclusive create. -/
theorem osCreateNew_ok (fs fs' : FS) (p : RPath)
    (h : osCreateNew fs p = (.ok (), fs')) :
    fs.findEntry p = none ∧ fs' = fs.insertEntry p (.file ⟨[], true⟩) := by
  unfold osCreateNew at h
  split at h
  · exact absurd h (by simp)
  · split at h
    · exact absurd h (by simp)
    · split at h
      · exact absurd h (by simp)
      · next hf => exact ⟨hf, ((Prod.mk.injEq _ _ _ _).mp h).2.symm⟩

/-- A failed exclusive create leaves the filesystem unchanged. -/
theorem osCreateNew_error (fs fs' : FS) (p : RPath) (e : IOErrorKind)
    (h : osCreateNew fs p = (.error e, fs')) : fs' = fs := by
  unfold osCreateNew at h
  split at h
  · exact ((Prod.mk.injEq _ _ _ _).mp h).2.symm
  · split at h
    · exact ((Prod.mk.injEq _ _ _ _).mp h).2.symm
    · split at h
      · exact ((Prod.mk.injEq _ _ _ _).mp h).2.symm
      · exact absurd h (by simp)

/-- Specification of a successful copy. -/
theorem osCopy_ok (fs fs' : FS) (src dst : RPath)
    (h : osCopy fs src dst = (.ok (), fs')) :
    ∃ d, fs.findEntry src = some (.file d) ∧ d.readable = true ∧
      fs' = fs.insertEntry dst (.file d) := by
  unfold osCopy at h
  split at h
  · exact absurd h (by simp)
  · exact absurd h (by simp)
  · next d hf =>
    split at h
    · exact absurd h (by simp)
    · next hr =>
      rw [Bool.not_eq_true', Bool.not_eq_false] at hr
      refine ⟨d, hf, hr, ?_⟩
      split at h
      · exact absurd h (by simp)
      · split at h
        · exact absurd h (by simp)
        · split at h
          · exact absurd h (by simp)
          · exact ((Prod.mk.injEq _ _ _ _).mp h).2.symm

/-- `create_dir_all` never touches entries at or above the depth it
starts from. -/
theorem createDirsFrom_frame (ab : Bool) (rest : List String) :
    ∀ (fs : FS) (base : List String) (r : Except IOErrorKind Unit) (fs' : FS),
      createDirsFrom fs ab base rest = (r, fs') →
      ∀ q : RPath, q.comps.length ≤ base.length → fs'.findEntry q = fs.findEntry q := by
  induction rest with
  | nil =>
    intro fs base r fs' h q hq
    unfold createDirsFrom at h
    rw [((Prod.mk.injEq _ _ _ _).mp h).2]
  | cons n rest ih =>
    intro fs base r fs' h q hq
    unfold createDirsFrom at h
    split at h
    · exact ih fs (base ++ [n]) r fs' h q (by simp only [List.length_append]; omega)
    · rw [((Prod.mk.injEq _ _ _ _).mp h).2]
    · have hstep := ih _ (base ++ [n]) r fs' h q (by simp only [List.length_append]; omega)
      rw [hstep, findEntry_insert_ne]
      intro heq
      have : q.comps.length = base.length + 1 := by
        rw [← heq]
        simp
      omega

/-- After a successful `create_dir_all`, every directory along the
created chain exists. -/
theorem createDirsFrom_ok_dirs (ab : Bool) (rest : List String) :
    ∀ (fs : FS) (base : List String) (fs' : FS),
      createDirsFrom fs ab base rest = (.ok (), fs') →
      ∀ k, 0 < k → k ≤ rest.length →
        fs'.findEntry ⟨ab, base ++ rest.take k⟩ = some .dir := by
  induction rest with
  | nil =>
    intro fs base fs' _ k hk hk'
    simp only [List.length_nil] at hk'
    omega
  | cons n rest ih =>
    intro fs base fs' h k hk hk'
    unfold createDirsFrom at h
    split at h
    · next hdir =>
      rcases Nat.eq_or_lt_of_le hk with hk1 | hk2
      · rw [← hk1]
        simp only [List.take_succ_cons, List.take_zero]
        have := createDirsFrom_frame ab rest fs (base ++ [n]) (.ok ()) fs' h
          ⟨ab, base ++ [n]⟩ (by simp)
        rw [this]
        exact hdir
      · obtain ⟨k', rfl⟩ : ∃ k', k = k' + 1 := ⟨k - 1, by omega⟩
        have := ih fs (base ++ [n]) fs' h k' (by omega) (by simpa using hk')
        simpa [List.append_assoc] using this
    · exact absurd h (by simp)
    · next hnone =>
      rcases Nat.eq_or_lt_of_le hk with hk1 | hk2
      · rw [← hk1]
        simp only [List.take_succ_cons, List.take_zero]
        have := createDirsFrom_frame ab rest _ (base ++ [n]) (.ok ()) fs' h
          ⟨ab, base ++ [n]⟩ (by simp)
        rw [this, findEntry_insert_self]
      · obtain ⟨k', rfl⟩ : ∃ k', k = k' + 1 := ⟨k - 1, by omega⟩
        have := ih _ (base ++ [n]) fs' h k' (by omega) (by simpa using hk')
        simpa [List.append_assoc] using this

/-- When every directory along the chain already exists,
`create_dir_all` is a no-op. -/
theorem createDirsFrom_noop (ab : Bool) (rest : List String) :
    ∀ (fs : FS) (base : List String),
      (∀ k, 0 < k → k ≤ rest.length →
        fs.findEntry ⟨ab, base ++ rest.take k⟩ = some .dir) →
      createDirsFrom fs ab base rest = (.ok (), fs) := by
  induction rest with
  | nil => intro fs base _; rfl
  | cons n rest ih =>
    intro fs base hdirs
    have h1 : fs.findEntry ⟨ab, base ++ [n]⟩ = some .dir := by
      have := hdirs 1 Nat.one_pos (by simp)
      simpa using this
    unfold createDirsFrom
    rw [h1]
    exact ih fs (base ++ [n]) (fun k hk hk' => by
      have := hdirs (k + 1) (by omega) (by simpa using hk')
      simpa [List.append_assoc] using this)

/-- Under `ancestorsAreDirs`, `ensure_dir` succeeds without touching the
filesystem. -/
theorem ensure_dir_noop (fs : FS) (p : RPath) (h : ancestorsAreDirs fs p) :
    ensure_dir fs p = (.ok (), fs) := by
  unfold ensure_dir osCreateDirAll
  have hrest : createDirsFrom fs p.popLast.absolute [] p.popLast.comps = (.ok (), fs) := by
    apply createDirsFrom_noop
    intro k hk hk'
    simp only [RPath.popLast, List.length_dropLast] at hk' ⊢
    have htake : p.comps.dropLast.take k = p.comps.take k := by
      rw [List.dropLast_eq_take, List.take_take]
      congr 1
      omega
    rw [List.nil_append, htake]
    exact h k hk (by omega)
  rw [hrest]


/-! ## Claim C6: shape of the candidate backup path -/

/-- C6: for an existing absolute file `p` with a file stem, the candidate
backup path computed by `generate_backup_path` is `p` with the
millisecond-precision UTC timestamp, rendered filesystem-safe by
stripping every `'-'`, `':'` and `'.'` (e.g. 2019-03-17T16:43:00Z
becomes `20190317T164300000Z`), inserted between the file stem and the
extension. -/
theorem C6_backup_candidate_format (fs : FS) (p : RPath) (dt : DT) (stem : String)
    (habs : p.absolute = true) (hfile : isFileFS fs p = true)
    (hstem : p.fileStem? = some stem) :
    (∀ c ∈ (file_name_safe_timestamp dt).data, isSepChar c = false) ∧
    file_name_safe_timestamp dt = (⟨timestampLabel dt⟩ : String) ∧
    (∀ e, p.extension? = some e →
      generate_backup_path fs p dt =
        some (p.withFileName (stem ++ "-" ++ file_name_safe_timestamp dt ++ "." ++ e))) ∧
    (p.extension? = none →
      generate_backup_path fs p dt =
        some (p.withFileName (stem ++ "-" ++ file_name_safe_timestamp dt))) := by
  refine ⟨?_, file_name_safe_timestamp_eq dt, ?_, ?_⟩
  · intro c hc
    rw [file_name_safe_timestamp_eq dt] at hc
    exact timestampLabel_not_sep dt c hc
  · intro e he
    unfold generate_backup_path label_file_name
    simp only [hfile, habs, hstem, he, Bool.and_self, if_true]
  · intro he
    unfold generate_backup_path label_file_name
    simp only [hfile, habs, hstem, he, Bool.and_self, if_true]

/-- Witness for C6 at the spec's own example: `/d/file.ext` at
2019-03-17T16:43:00Z maps to `/d/file-20190317T164300000Z.ext`. -/
theorem C6_witness :
    generate_backup_path fsW6 pW6 dtW6 =
      some ⟨true, ["d", "file-20190317T164300000Z.ext"]⟩ ∧
    file_name_safe_timestamp dtW6 = "20190317T164300000Z" := by
  obtain ⟨-, h2, h3, -⟩ :=
    C6_backup_candidate_format fsW6 pW6 dtW6 "file" (by decide) (by decide) (by decide)
  have hlabel : file_name_safe_timestamp dtW6 = "20190317T164300000Z" := by
    rw [h2]; with_unfolding_all decide
  refine ⟨?_, hlabel⟩
  have h := h3 "ext" (by decide)
  rw [h, hlabel]
  decide


/-! ## Claim C4: read failure classification -/

/-- C4: `read_text_file` and `read_bytes` fail with kind `NotFound`
exactly when the path does not exist, `IsADirectory` exactly when it
resolves to a directory, and `Other` for every other I/O failure
(permission denial, invalid UTF-8 when decoding text); on success they
return the full contents in one shot. -/
theorem C4_read_error_classification (fs : FS) (p : RPath) :
    (fs.findEntry p = none →
      read_text_file fs p = .error (.notFound p) ∧
      read_bytes fs p = .error (.notFound p) ∧
      (FileReadError.notFound p).kind = .notFound) ∧
    (fs.findEntry p = some .dir →
      read_text_file fs p = .error (.isADirectory p) ∧
      read_bytes fs p = .error (.isADirectory p) ∧
      (FileReadError.isADirectory p).kind = .isADirectory) ∧
    (∀ d, fs.findEntry p = some (.file d) →
      (d.readable = false →
        read_text_file fs p = .error (.other .permissionDenied) ∧
        read_bytes fs p = .error (.other .permissionDenied) ∧
        (FileReadError.other .permissionDenied).kind = .other) ∧
      (d.readable = true →
        read_bytes fs p = .ok d.bytes ∧
        (validUtf8 d.bytes = true → read_text_file fs p = .ok d.bytes) ∧
        (validUtf8 d.bytes = false →
          read_text_file fs p = .error (.other .invalidData) ∧
          (FileReadError.other .invalidData).kind = .other))) := by
  refine ⟨fun h => ⟨?_, ?_, rfl⟩, fun h => ⟨?_, ?_, rfl⟩,
    fun d hd => ⟨fun hr => ⟨?_, ?_, rfl⟩,
      fun hr => ⟨?_, fun hv => ?_, fun hv => ⟨?_, rfl⟩⟩⟩⟩ <;>
    simp [read_text_file, read_bytes, osReadToString, osReadBytes,
      FileReadError.convert, *]

/-- Witness for C4: each classification branch at a concrete
filesystem. -/
theorem C4_witness :
    read_text_file fsW4 pW4a = .error (.notFound pW4a) ∧
    read_bytes fsW4 pW4b = .error (.isADirectory pW4b) ∧
    read_text_file fsW4 pW4c = .error (.other .permissionDenied) ∧
    read_bytes fsW4 pW4d = .ok [104, 105] ∧
    read_text_file fsW4 pW4d = .ok [104, 105] ∧
    read_text_file fsW4 pW4e = .error (.other .invalidData) := by
  refine ⟨?_, ?_, ?_, ?_, ?_, ?_⟩
  · exact ((C4_read_error_classification fsW4 pW4a).1 (by decide)).1
  · exact ((C4_read_error_classification fsW4 pW4b).2.1 (by decide)).2.1
  · exact (((C4_read_error_classification fsW4 pW4c).2.2 ⟨[7], false⟩
      (by decide)).1 (by decide)).1
  · exact (((C4_read_error_classification fsW4 pW4d).2.2 ⟨[104, 105], true⟩
      (by decide)).2 (by decide)).1
  · exact ((((C4_read_error_classification fsW4 pW4d).2.2 ⟨[104, 105], true⟩
      (by decide)).2 (by decide)).2.1 (by decide))
  · exact ((((C4_read_error_classification fsW4 pW4e).2.2 ⟨[192], true⟩
      (by decide)).2 (by decide)).2.2 (by decide)).1


/-! ## Claims C7 and C8: error display and wrapped-cause downcast -/

theorem strContains_append_right (a s : String) :
    strContains s (a ++ s) = true := by
  unfold strContains
  rw [String.data_append]
  exact occursIn_append_right a.data s.data

theorem strContains_append_middle (a s b : String) :
    strContains s (a ++ s ++ b) = true := by
  unfold strContains
  rw [String.data_append, String.data_append, List.append_assoc]
  exact occursIn_append_middle a.data s.data b.data

theorem strContains_not_found (a : String) :
    strContains "not found" (a ++ " not found") = true := by
  unfold strContains
  rw [String.data_append]
  rw [show (" not found" : String).data = [' '] ++ "not found".data from rfl]
  rw [← List.append_assoc]
  exact occursIn_append_right _ _

/-- C7 (amended): reading a nonexistent YAML file yields an error of
kind `Other`; the wrapped cause's concrete type is `FileReadError` (the
crate has no type named `FileNotFoundError`), so a downcast to
`FileReadError` succeeds, and the recovered cause is the `NotFound`
variant, whose display reports that the file was not found. -/
theorem C7_yaml_missing_file_downcast {α : Type}
    (parse : List Nat → Except SerdeYamlError α) (fs : FS) (p : RPath)
    (h : fs.findEntry p = none) :
    read_yaml_file parse fs p = .error (.other (.aFileRead (.notFound p))) ∧
    (YamlError.other (.aFileRead (.notFound p))).kind = .other ∧
    (YamlError.other (.aFileRead (.notFound p))).downcastOtherTy .tFileReadError =
      some (.aFileRead (.notFound p)) ∧
    (FileReadError.notFound p).isNotFound = true ∧
    strContains "not found" (FileReadError.notFound p).display = true := by
  refine ⟨?_, rfl, rfl, rfl, ?_⟩
  · simp [read_yaml_file, read_text_file, osReadToString, osReadBytes,
      FileReadError.convert, h]
  · exact strContains_not_found ("File " ++ pathToStr p)

/-- Witness for C7's amended statement at the empty filesystem. -/
theorem C7_witness :
    read_yaml_file parseW7 [] pW7 = .error (.other (.aFileRead (.notFound pW7))) ∧
    (YamlError.other (.aFileRead (.notFound pW7))).downcastOtherTy .tFileReadError =
      some (.aFileRead (.notFound pW7)) ∧
    (FileReadError.notFound pW7).isNotFound = true := by
  obtain ⟨h1, -, h3, h4, -⟩ :=
    C7_yaml_missing_file_downcast parseW7 [] pW7 (by decide)
  exact ⟨h1, h3, h4⟩

/-- Counterexample for C7 as stated: the wrapped cause's concrete type
is `FileReadError`, not a type named `FileNotFoundError`, so
`downcast_other_ref::<FileNotFoundError>()` returns `None` rather than
succeeding. -/
theorem C7_counterexample :
    read_yaml_file parseW7 [] pW7 = .error (.other (.aFileRead (.notFound pW7))) ∧
    (YamlError.other (.aFileRead (.notFound pW7))).downcastOtherTy
      .tFileNotFoundError = none ∧
    AnyErr.typeOf (.aFileRead (.notFound pW7)) ≠ .tFileNotFoundError := by
  refine ⟨by decide, rfl, by decide⟩

/-- C8 (amended): every classified (non-`Other`) error variant of the
file-read, file-write and JSON/YAML/TOML families renders the involved
path inside its display message, and the TOML translation additionally
renders the failure span when one is available.  (`Other`-wrapped causes
are displayed transparently and need not mention the path.) -/
theorem C8_classified_display_includes_path :
    (∀ p : RPath,
      strContains (pathToStr p) (FileReadError.notFound p).display = true) ∧
    (∀ p : RPath,
      strContains (pathToStr p) (FileReadError.isADirectory p).display = true) ∧
    (∀ p : RPath,
      strContains (pathToStr p) (FileWriteError.alreadyExists p).display = true) ∧
    (∀ (e : SerdeYamlError) (p : RPath),
      strContains (pathToStr p) (YamlError.convert e p).display = true) ∧
    (∀ (e : SerdeJsonError) (p : RPath),
      strContains (pathToStr p) (JsonError.convert e p).display = true) ∧
    (∀ (e : TomlDeError) (p : RPath),
      strContains (pathToStr p) (TomlError.convert e p).display = true) ∧
    (∀ (m : String) (s : TomlSpan) (p : RPath),
      strContains " at span "
        (TomlError.convert ⟨m, some s⟩ p).display = true) := by
  refine ⟨?_, ?_, ?_, ?_, ?_, ?_, ?_⟩
  · intro p
    exact strContains_append_middle "File " (pathToStr p) " not found"
  · intro p
    exact strContains_append_middle "File system object " (pathToStr p)
      " is a directory not a file"
  · intro p
    exact strContains_append_middle "File " (pathToStr p) " already exists"
  · intro e p
    exact strContains_append_right (e.message ++ " in ") (pathToStr p)
  · intro e p
    cases e with
    | mk m cat =>
      cases cat <;>
        exact strContains_append_right (m ++ " in ") (pathToStr p)
  · intro e p
    cases e with
    | mk m sp =>
      cases sp with
      | none =>
        simp only [TomlError.convert, TomlError.display]
        exact strContains_append_right (m ++ " in ") (pathToStr p)
      | some s =>
        show strContains (pathToStr p)
          (m ++ " at span " ++ (⟨natDigits s.startPos⟩ : String) ++ ":" ++
            (⟨natDigits s.endPos⟩ : String) ++ " in " ++ pathToStr p) = true
        unfold strContains
        simp only [String.data_append]
        exact occursIn_append_right _ _
  · intro m s p
    show strContains " at span "
      (m ++ " at span " ++ (⟨natDigits s.startPos⟩ : String) ++ ":" ++
        (⟨natDigits s.endPos⟩ : String) ++ " in " ++ pathToStr p) = true
    unfold strContains
    simp only [String.data_append, List.append_assoc]
    exact occursIn_append_middle _ _ _

/-- Counterexample for C8 as stated: `safe_write_file` on `/a/b.txt`
when `/a` is a regular file fails in `ensure_dir`; the resulting error
wraps the raw I/O error transparently, and its display, the plain
`strerror` text, does not contain the involved path `/a/b.txt`. -/
theorem C8_counterexample :
    (safe_write_file fsW8 pW8 [] false).1 = .error (.other (.aIoErr .alreadyExists)) ∧
    FileWriteError.display (.other (.aIoErr .alreadyExists)) =
      "File exists (os error 17)" ∧
    strContains (pathToStr pW8)
      (FileWriteError.display (.other (.aIoErr .alreadyExists))) = false := by
  refine ⟨by decide, rfl, by decide⟩


/-! ## Claims C3 and C9: safe writers -/

theorem parent?_of_nonempty (p : RPath) (hne : p.comps ≠ []) :
    p.parent? = some p.popLast := by
  unfold RPath.parent? RPath.popLast
  rw [if_neg]
  simp only [List.isEmpty_iff]
  exact hne

theorem ancestors_resolve_popLast (fs : FS) (p : RPath)
    (h : ancestorsAreDirs fs p) : resolvesAsDir fs p.popLast = true := by
  unfold resolvesAsDir RPath.popLast isDirFS
  rcases hlen : p.comps.dropLast with _ | ⟨a, l⟩
  · rfl
  · have hlen2 : p.comps.dropLast.length = p.comps.length - 1 := List.length_dropLast _
    have hpos : 0 < p.comps.dropLast.length := by rw [hlen]; simp
    have hlt : p.comps.length - 1 < p.comps.length := by omega
    have := h (p.comps.length - 1) (by omega) hlt
    rw [← List.dropLast_eq_take] at this
    simp
    rw [← hlen]
    exact this

theorem osCreateNew_existing (fs : FS) (p : RPath) (e : Entry)
    (hne : p.comps ≠ []) (hres : resolvesAsDir fs p.popLast = true)
    (hp : fs.findEntry p = some e) :
    osCreateNew fs p = (.error .alreadyExists, fs) := by
  unfold osCreateNew
  rw [parent?_of_nonempty p hne]
  simp only [hres, hp, Bool.not_true, Bool.false_eq_true, if_false]

theorem osWriteFile_existing (fs : FS) (p : RPath) (c : List Nat) (d : FileData)
    (hne : p.comps ≠ []) (hres : resolvesAsDir fs p.popLast = true)
    (hp : fs.findEntry p = some (.file d)) :
    osWriteFile fs p c = (.ok (), fs.insertEntry p (.file ⟨c, d.readable⟩)) := by
  unfold osWriteFile
  rw [parent?_of_nonempty p hne]
  simp only [hres, hp, Bool.not_true, Bool.false_eq_true, if_false]

theorem safe_create_file_existing (fs : FS) (p : RPath) (e : Entry)
    (hanc : ancestorsAreDirs fs p) (hp : fs.findEntry p = some e)
    (hne : p.comps ≠ []) :
    safe_create_file fs p false = (.error (.alreadyExists p), fs) := by
  unfold safe_create_file
  rw [ensure_dir_noop fs p hanc]
  dsimp only
  rw [osCreateNew_existing fs p e hne (ancestors_resolve_popLast fs p hanc) hp]
  rfl

/-- C3: on a path where a file already exists, `safe_write_file` without
overwrite fails with kind `AlreadyExists` and leaves the filesystem
untouched; with overwrite it succeeds and replaces the contents with
exactly `c`, touching no other path.  The no-overwrite create decision
is the single OS exclusive-create call (no separate existence check
precedes it). -/
theorem C3_safe_write_existing_file (fs : FS) (p : RPath) (c : List Nat)
    (d : FileData) (hanc : ancestorsAreDirs fs p)
    (hp : fs.findEntry p = some (.file d)) (hne : p.comps ≠ []) :
    (safe_write_file fs p c false = (.error (.alreadyExists p), fs) ∧
      (FileWriteError.alreadyExists p).kind = .alreadyExists) ∧
    (∃ fs', safe_write_file fs p c true = (.ok (), fs') ∧
      fs'.findEntry p = some (.file ⟨c, d.readable⟩) ∧
      ∀ q, q ≠ p → fs'.findEntry q = fs.findEntry q) ∧
    safe_create_file fs p false =
      (match osCreateNew fs p with
        | (.ok (), fs2) => (.ok p, fs2)
        | (.error e, fs2) => (.error (FileWriteError.convert e p), fs2)) := by
  have hres := ancestors_resolve_popLast fs p hanc
  have hnoop := ensure_dir_noop fs p hanc
  refine ⟨⟨?_, rfl⟩, ?_, ?_⟩
  · unfold safe_write_file
    rw [hnoop]
    dsimp only
    rw [safe_create_file_existing fs p (.file d) hanc hp hne]
    rfl
  · refine ⟨fs.insertEntry p (.file ⟨c, d.readable⟩), ?_, findEntry_insert_self _ _ _,
      fun q hq => findEntry_insert_ne _ _ _ _ (fun hh => hq hh.symm)⟩
    unfold safe_write_file
    rw [hnoop]
    dsimp only
    rw [osWriteFile_existing fs p c d hne hres hp]
    rfl
  · unfold safe_create_file
    rw [hnoop]
    rfl

/-- Witness for C3: concrete filesystem with `/d/f.txt` present. -/
theorem C3_witness :
    safe_write_file [(⟨true, ["d"]⟩, .dir), (⟨true, ["d", "f.txt"]⟩, .file ⟨[1], true⟩)]
      ⟨true, ["d", "f.txt"]⟩ [9, 9] false =
      (.error (.alreadyExists ⟨true, ["d", "f.txt"]⟩),
        [(⟨true, ["d"]⟩, .dir), (⟨true, ["d", "f.txt"]⟩, .file ⟨[1], true⟩)]) ∧
    (∃ fs', safe_write_file
        [(⟨true, ["d"]⟩, .dir), (⟨true, ["d", "f.txt"]⟩, .file ⟨[1], true⟩)]
        ⟨true, ["d", "f.txt"]⟩ [9, 9] true = (.ok (), fs') ∧
      fs'.findEntry ⟨true, ["d", "f.txt"]⟩ = some (.file ⟨[9, 9], true⟩)) := by
  obtain ⟨⟨h1, -⟩, ⟨fs', h2, h3, -⟩, -⟩ :=
    C3_safe_write_existing_file
      [(⟨true, ["d"]⟩, .dir), (⟨true, ["d", "f.txt"]⟩, .file ⟨[1], true⟩)]
      ⟨true, ["d", "f.txt"]⟩ [9, 9] ⟨[1], true⟩
      (by
        intro k hk hk'
        have h2 : k < 2 := by simpa using hk'
        have h1 : k = 1 := by omega
        subst h1
        decide)
      (by decide) (by decide)
  exact ⟨h1, fs', h2, h3⟩


/-! ## Claim C9: parent-directory creation as a persistent side effect -/

/-- C9: `safe_create_file` and `safe_write_file` first ensure the parent
directory chain (recursively created); a failure of that directory
creation is classified `Other` and returned as-is by both functions,
while after a successful `ensure_dir` the created chain exists and
persists even when the subsequent exclusive create fails. -/
theorem C9_parent_dirs_side_effect (fs : FS) (p : RPath) (c : List Nat) :
    (∀ e fs1, ensure_dir fs p = (.error e, fs1) →
      e.kind = .other ∧
      (∀ ov, safe_write_file fs p c ov = (.error e, fs1)) ∧
      (∀ ov, safe_create_file fs p ov = (.error e, fs1))) ∧
    (∀ fs1, ensure_dir fs p = (.ok (), fs1) →
      ancestorsAreDirs fs1 p ∧
      (∀ e fs2, safe_write_file fs p c false = (.error e, fs2) →
        ancestorsAreDirs fs2 p)) := by
  constructor
  · intro e fs1 h
    refine ⟨?_, ?_, ?_⟩
    · unfold ensure_dir at h
      split at h
      · exact absurd h (by simp)
      · next e' fs1' =>
        have he := ((Prod.mk.injEq _ _ _ _).mp h).1
        cases he
        rfl
    · intro ov
      unfold safe_write_file
      rw [h]
    · intro ov
      unfold safe_create_file
      rw [h]
  · intro fs1 h
    rcases hcd0 : osCreateDirAll fs p.popLast with ⟨r0, fsd⟩
    have h' := h
    unfold ensure_dir at h'
    rw [hcd0] at h'
    cases r0 with
    | error e0 => exact absurd h' (by simp)
    | ok u0 =>
      cases u0
      have hfsd : fsd = fs1 := ((Prod.mk.injEq _ _ _ _).mp h').2
      have hcd : createDirsFrom fs p.absolute [] p.comps.dropLast = (.ok (), fs1) := by
        have h2 := hcd0
        rw [hfsd] at h2
        simpa only [osCreateDirAll, RPath.popLast] using h2
      have hdirs : ancestorsAreDirs fs1 p := by
        intro k hk hk'
        have hk2 : k ≤ p.comps.dropLast.length := by
          rw [List.length_dropLast]
          omega
        have hd := createDirsFrom_ok_dirs p.absolute p.comps.dropLast fs [] fs1
          hcd k hk hk2
        have htake : p.comps.dropLast.take k = p.comps.take k := by
          rw [List.dropLast_eq_take, List.take_take]
          congr 1
          rw [List.length_dropLast] at hk2
          omega
        rw [List.nil_append, htake] at hd
        exact hd
      refine ⟨hdirs, ?_⟩
      intro e fs2 hw
      suffices hfs : fs2 = fs1 by rw [hfs]; exact hdirs
      unfold safe_write_file at hw
      rw [h] at hw
      dsimp only at hw
      unfold safe_create_file at hw
      rw [ensure_dir_noop fs1 p hdirs] at hw
      dsimp only at hw
      rcases hcn : osCreateNew fs1 p with ⟨r, fs3⟩
      rw [hcn] at hw
      cases r with
      | ok u => exact absurd hw (by simp)
      | error e' =>
        have hfs3 : fs3 = fs1 := osCreateNew_error fs1 fs3 p e' hcn
        rw [← hfs3]
        exact (((Prod.mk.injEq _ _ _ _).mp hw).2).symm

/-- Witness for C9: a failing `ensure_dir` (parent is a regular file)
returns kind `Other`, and a failing exclusive create after a successful
`ensure_dir` leaves the freshly created `/a` directory behind. -/
theorem C9_witness :
    (FileWriteError.other (.aIoErr .alreadyExists)).kind = .other ∧
    safe_write_file fsW9a pW9 [7] false =
      (.error (.other (.aIoErr .alreadyExists)), fsW9a) ∧
    safe_write_file fsW9b pW9 [7] false = (.error (.alreadyExists pW9), fs1W9b) ∧
    fs1W9b.findEntry ⟨true, ["a"]⟩ = some .dir := by
  have hA := (C9_parent_dirs_side_effect fsW9a pW9 [7]).1
    (.other (.aIoErr .alreadyExists)) fsW9a (by decide)
  have hsw : safe_write_file fsW9b pW9 [7] false =
      (.error (.alreadyExists pW9), fs1W9b) := by decide
  have hB := (C9_parent_dirs_side_effect fsW9b pW9 [7]).2 fs1W9b (by decide)
  have hdir := hB.2 (.alreadyExists pW9) fs1W9b hsw 1 (by omega) (by decide)
  exact ⟨hA.1, hA.2.1 false, hsw, hdir⟩


/-! ## Claims C5 and C10: sentinel search -/

theorem upChain_length (k : Nat) :
    ∀ d : RPath, (upChain d k).length = min k (d.comps.length + 1) := by
  induction k with
  | zero => intro d; simp [upChain]
  | succ k ih =>
    intro d
    rw [upChain]
    by_cases hroot : d.comps = []
    · rw [if_pos hroot, hroot]
      simp
    · rw [if_neg hroot]
      rw [List.length_cons, ih d.popLast]
      have he : d.popLast.comps.length = d.comps.length - 1 := by
        simp [RPath.popLast]
      rw [he]
      have hpos : 0 < d.comps.length := List.length_pos.mpr hroot
      omega

theorem upChain_get (k : Nat) :
    ∀ (d : RPath) (i : Nat), i < (upChain d k).length →
      (upChain d k)[i]? = some ⟨d.absolute, d.comps.take (d.comps.length - i)⟩ := by
  induction k with
  | zero => intro d i hi; simp [upChain] at hi
  | succ k ih =>
    intro d i hi
    rw [upChain] at hi ⊢
    cases i with
    | zero =>
      simp only [List.getElem?_cons_zero, Nat.sub_zero, List.take_length]
    | succ i =>
      rw [List.getElem?_cons_succ]
      by_cases hroot : d.comps = []
      · rw [if_pos hroot] at hi
        simp at hi
      · rw [if_neg hroot] at hi ⊢
        simp only [List.length_cons, Nat.succ_lt_succ_iff] at hi
        rw [ih d.popLast i hi]
        have hpos : 0 < d.comps.length := List.length_pos.mpr hroot
        have hcomp : d.popLast.comps.take (d.popLast.comps.length - i) =
            d.comps.take (d.comps.length - (i + 1)) := by
          show d.comps.dropLast.take (d.comps.dropLast.length - i) = _
          rw [List.length_dropLast, List.dropLast_eq_take, List.take_take]
          congr 1
          omega
        rw [hcomp]
        rfl

theorem sentinelDirLoop_eq_find (fs : FS) (name : String) :
    ∀ (n : Nat) (d : RPath), d.comps.length = n → ∀ c : Int, 0 < c →
      findSentinelDirLoop fs name d c =
        ((upChain d c.toNat).map (fun q => q.push name)).find?
          (fun q => isDirFS fs q) := by
  intro n
  induction n using Nat.strong_induction_on with
  | _ n ih =>
    intro d hn c hc
    obtain ⟨m, hm⟩ : ∃ m, c.toNat = m + 1 := ⟨c.toNat - 1, by omega⟩
    unfold findSentinelDirLoop
    rw [hm, upChain, if_neg (show ¬ c = 0 by omega), List.map_cons]
    by_cases hdir : isDirFS fs (d.push name)
    · rw [if_pos hdir, List.find?_cons_of_pos _ hdir]
    · rw [if_neg hdir, List.find?_cons_of_neg _ (by simp [hdir])]
      by_cases hroot : d.comps = []
      · rw [dif_pos hroot, if_pos hroot]
        rfl
      · rw [dif_neg hroot, if_neg hroot]
        rcases Nat.eq_zero_or_pos m with rfl | hm0
        · have hc1 : c = 1 := by omega
          subst hc1
          rw [show decI32 1 = 0 from rfl]
          rw [show upChain d.popLast 0 = [] from rfl]
          unfold findSentinelDirLoop
          rfl
        · have hpos : 0 < d.comps.length := List.length_pos.mpr hroot
          have hd1 : d.popLast.comps.length = n - 1 := by
            simp [RPath.popLast, List.length_dropLast, hn]
          have hdec : decI32 c = c - 1 := by
            unfold decI32
            rw [if_neg (by omega)]
          have hrec := ih (n - 1) (by omega) d.popLast hd1 (c - 1) (by omega)
          rw [hdec, hrec]
          have htn : (c - 1).toNat = m := by omega
          rw [htn]

theorem sentinelFileLoop_eq_find (fs : FS) (name : String) :
    ∀ (n : Nat) (d : RPath), d.comps.length = n → ∀ c : Int, 0 < c →
      findSentinelFileLoop fs name d c =
        ((upChain d c.toNat).map (fun q => q.push name)).find?
          (fun q => isFileFS fs q) := by
  intro n
  induction n using Nat.strong_induction_on with
  | _ n ih =>
    intro d hn c hc
    obtain ⟨m, hm⟩ : ∃ m, c.toNat = m + 1 := ⟨c.toNat - 1, by omega⟩
    unfold findSentinelFileLoop
    rw [hm, upChain, if_neg (show ¬ c = 0 by omega), List.map_cons]
    by_cases hdir : isFileFS fs (d.push name)
    · rw [if_pos hdir, List.find?_cons_of_pos _ hdir]
    · rw [if_neg hdir, List.find?_cons_of_neg _ (by simp [hdir])]
      by_cases hroot : d.comps = []
      · rw [dif_pos hroot, if_pos hroot]
        rfl
      · rw [dif_neg hroot, if_neg hroot]
        rcases Nat.eq_zero_or_pos m with rfl | hm0
        · have hc1 : c = 1 := by omega
          subst hc1
          rw [show decI32 1 = 0 from rfl]
          rw [show upChain d.popLast 0 = [] from rfl]
          unfold findSentinelFileLoop
          rfl
        · have hpos : 0 < d.comps.length := List.length_pos.mpr hroot
          have hd1 : d.popLast.comps.length = n - 1 := by
            simp [RPath.popLast, List.length_dropLast, hn]
          have hdec : decI32 c = c - 1 := by
            unfold decI32
            rw [if_neg (by omega)]
          have hrec := ih (n - 1) (by omega) d.popLast hd1 (c - 1) (by omega)
          rw [hdec, hrec]
          have htn : (c - 1).toNat = m := by omega
          rw [htn]


theorem unboundedUpDir_eq_find (fs : FS) (name : String) :
    ∀ (n : Nat) (d : RPath), d.comps.length = n →
      unboundedUpDir fs name d =
        ((fullUpChain d).map (fun q => q.push name)).find?
          (fun q => isDirFS fs q) := by
  intro n
  induction n using Nat.strong_induction_on with
  | _ n ih =>
    intro d hn
    unfold unboundedUpDir
    rw [fullUpChain, hn, upChain, List.map_cons]
    by_cases hdir : isDirFS fs (d.push name)
    · rw [if_pos hdir, List.find?_cons_of_pos _ hdir]
    · rw [if_neg hdir, List.find?_cons_of_neg _ (by simp [hdir])]
      by_cases hroot : d.comps = []
      · rw [dif_pos hroot, if_pos hroot]
        rfl
      · rw [dif_neg hroot, if_neg hroot]
        have hpos : 0 < d.comps.length := List.length_pos.mpr hroot
        have hd1 : d.popLast.comps.length = n - 1 := by
          simp [RPath.popLast, List.length_dropLast, hn]
        rw [ih (n - 1) (by omega) d.popLast hd1, fullUpChain, hd1]
        have : n - 1 + 1 = n := by omega
        rw [this]

theorem unboundedUpFile_eq_find (fs : FS) (name : String) :
    ∀ (n : Nat) (d : RPath), d.comps.length = n →
      unboundedUpFile fs name d =
        ((fullUpChain d).map (fun q => q.push name)).find?
          (fun q => isFileFS fs q) := by
  intro n
  induction n using Nat.strong_induction_on with
  | _ n ih =>
    intro d hn
    unfold unboundedUpFile
    rw [fullUpChain, hn, upChain, List.map_cons]
    by_cases hdir : isFileFS fs (d.push name)
    · rw [if_pos hdir, List.find?_cons_of_pos _ hdir]
    · rw [if_neg hdir, List.find?_cons_of_neg _ (by simp [hdir])]
      by_cases hroot : d.comps = []
      · rw [dif_pos hroot, if_pos hroot]
        rfl
      · rw [dif_neg hroot, if_neg hroot]
        have hpos : 0 < d.comps.length := List.length_pos.mpr hroot
        have hd1 : d.popLast.comps.length = n - 1 := by
          simp [RPath.popLast, List.length_dropLast, hn]
        rw [ih (n - 1) (by omega) d.popLast hd1, fullUpChain, hd1]
        have : n - 1 + 1 = n := by omega
        rw [this]

/-- A counter is "good" when the wrapping decrement cannot reach 0
within the remaining ancestor-chain depth: either a genuine `i32`
negative (the chain is far shorter than the wrap distance), or larger
than the depth. -/
def goodCount (c : Int) (n : Nat) : Prop :=
  (c < 0 ∧ -(2 ^ 31) ≤ c ∧ (n : Int) < 2 ^ 31) ∨ (n : Int) < c

theorem goodCount_ne_zero (c : Int) (n : Nat) (h : goodCount c n) : ¬c = 0 := by
  rcases h with ⟨h1, -, -⟩ | h1 <;> omega

theorem goodCount_dec (c : Int) (n : Nat) (h : goodCount c n) (hn : 0 < n) :
    goodCount (decI32 c) (n - 1) := by
  unfold decI32
  rcases h with ⟨h1, h2, h3⟩ | h1
  · by_cases hmin : c = -(2 ^ 31)
    · rw [if_pos hmin]
      right
      omega
    · rw [if_neg hmin]
      left
      refine ⟨by omega, by omega, by omega⟩
  · rw [if_neg (by omega)]
    right
    omega

theorem sentinelDirLoop_neg (fs : FS) (name : String) :
    ∀ (n : Nat) (d : RPath), d.comps.length = n → ∀ c : Int, goodCount c n →
      findSentinelDirLoop fs name d c = unboundedUpDir fs name d := by
  intro n
  induction n using Nat.strong_induction_on with
  | _ n ih =>
    intro d hn c hc
    unfold findSentinelDirLoop unboundedUpDir
    rw [if_neg (goodCount_ne_zero c n hc)]
    by_cases hdir : isDirFS fs (d.push name)
    · rw [if_pos hdir, if_pos hdir]
    · rw [if_neg hdir, if_neg hdir]
      by_cases hroot : d.comps = []
      · rw [dif_pos hroot, dif_pos hroot]
      · rw [dif_neg hroot, dif_neg hroot]
        have hpos : 0 < d.comps.length := List.length_pos.mpr hroot
        have hd1 : d.popLast.comps.length = n - 1 := by
          simp [RPath.popLast, List.length_dropLast, hn]
        exact ih (n - 1) (by omega) d.popLast hd1 (decI32 c)
          (goodCount_dec c n hc (by omega))

theorem sentinelFileLoop_neg (fs : FS) (name : String) :
    ∀ (n : Nat) (d : RPath), d.comps.length = n → ∀ c : Int, goodCount c n →
      findSentinelFileLoop fs name d c = unboundedUpFile fs name d := by
  intro n
  induction n using Nat.strong_induction_on with
  | _ n ih =>
    intro d hn c hc
    unfold findSentinelFileLoop unboundedUpFile
    rw [if_neg (goodCount_ne_zero c n hc)]
    by_cases hdir : isFileFS fs (d.push name)
    · rw [if_pos hdir, if_pos hdir]
    · rw [if_neg hdir, if_neg hdir]
      by_cases hroot : d.comps = []
      · rw [dif_pos hroot, dif_pos hroot]
      · rw [dif_neg hroot, dif_neg hroot]
        have hpos : 0 < d.comps.length := List.length_pos.mpr hroot
        have hd1 : d.popLast.comps.length = n - 1 := by
          simp [RPath.popLast, List.length_dropLast, hn]
        exact ih (n - 1) (by omega) d.popLast hd1 (decI32 c)
          (goodCount_dec c n hc (by omega))

/-- C5: `find_sentinel_dir` / `find_sentinel_file` default the hop limit
to 30 when no limit is given, and with a positive limit `l` they return
the first match over the chain of examined directories — `start_dir`,
then its parents, walking strictly upward — which contains
`min l (depth + 1)` entries, the `i`-th being `start_dir` with `i`
components popped.  With limit 3 this chain reaches exactly 2 hops
above `start_dir` and never 4. -/
theorem C5_sentinel_walk (fs : FS) (name : String) (start : RPath) :
    find_sentinel_dir fs name start none = findSentinelDirLoop fs name start 30 ∧
    find_sentinel_file fs name start none = findSentinelFileLoop fs name start 30 ∧
    (∀ l : Int, 0 < l →
      find_sentinel_dir fs name start (some l) =
        ((upChain start l.toNat).map (fun q => q.push name)).find?
          (fun q => isDirFS fs q)) ∧
    (∀ l : Int, 0 < l →
      find_sentinel_file fs name start (some l) =
        ((upChain start l.toNat).map (fun q => q.push name)).find?
          (fun q => isFileFS fs q)) ∧
    (∀ k, (upChain start k).length = min k (start.comps.length + 1)) ∧
    (∀ k i, i < (upChain start k).length →
      (upChain start k)[i]? =
        some ⟨start.absolute, start.comps.take (start.comps.length - i)⟩) := by
  refine ⟨rfl, rfl, ?_, ?_, fun k => upChain_length k start,
    fun k i hi => upChain_get k start i hi⟩
  · intro l hl
    exact sentinelDirLoop_eq_find fs name start.comps.length start rfl l hl
  · intro l hl
    exact sentinelFileLoop_eq_find fs name start.comps.length start rfl l hl

/-- Witness for C5: with limit 3, a sentinel exactly 2 hops above
`/t/a/b/c` is found, and one 4 hops above is not. -/
theorem C5_witness :
    find_sentinel_dir fs5 "SENTINEL" start5 (some 3) =
      some ⟨true, ["t", "a", "SENTINEL"]⟩ ∧
    find_sentinel_dir fs5b "SENTINEL" start5 (some 3) = none := by
  have h1 := (C5_sentinel_walk fs5 "SENTINEL" start5).2.2.1 3 (by omega)
  have h2 := (C5_sentinel_walk fs5b "SENTINEL" start5).2.2.1 3 (by omega)
  constructor
  · rw [h1]
    decide
  · rw [h2]
    decide

/-- C10: with `limit = Some(0)` both sentinel searches return `None`
immediately, before examining any directory; with a negative limit the
hop bound is effectively disabled — for any chain shorter than the
`i32` wrap distance the search behaves exactly like the unbounded
upward walk, which examines every ancestor up to the filesystem root
before returning `None`. -/
theorem C10_sentinel_zero_and_negative (fs : FS) (name : String) (start : RPath) :
    find_sentinel_dir fs name start (some 0) = none ∧
    find_sentinel_file fs name start (some 0) = none ∧
    (∀ l : Int, l < 0 → -(2 ^ 31) ≤ l → (start.comps.length : Int) < 2 ^ 31 →
      find_sentinel_dir fs name start (some l) = unboundedUpDir fs name start ∧
      find_sentinel_file fs name start (some l) = unboundedUpFile fs name start) ∧
    unboundedUpDir fs name start =
      ((fullUpChain start).map (fun q => q.push name)).find?
        (fun q => isDirFS fs q) ∧
    unboundedUpFile fs name start =
      ((fullUpChain start).map (fun q => q.push name)).find?
        (fun q => isFileFS fs q) := by
  refine ⟨?_, ?_, ?_, unboundedUpDir_eq_find fs name start.comps.length start rfl,
    unboundedUpFile_eq_find fs name start.comps.length start rfl⟩
  · show findSentinelDirLoop fs name start 0 = none
    unfold findSentinelDirLoop
    simp
  · show findSentinelFileLoop fs name start 0 = none
    unfold findSentinelFileLoop
    simp
  · intro l h1 h2 h3
    exact ⟨sentinelDirLoop_neg fs name start.comps.length start rfl l
        (Or.inl ⟨h1, h2, h3⟩),
      sentinelFileLoop_neg fs name start.comps.length start rfl l
        (Or.inl ⟨h1, h2, h3⟩)⟩

/-- Witness for C10: with limit 0 the search misses a sentinel sitting
in the start directory itself; with limit -1 it finds it. -/
theorem C10_witness :
    find_sentinel_dir fs10 "S" start10 (some 0) = none ∧
    isDirFS fs10 (start10.push "S") = true ∧
    find_sentinel_dir fs10 "S" start10 (some (-1)) = some ⟨true, ["x", "S"]⟩ := by
  have h0 := (C10_sentinel_zero_and_negative fs10 "S" start10).1
  have hneg := ((C10_sentinel_zero_and_negative fs10 "S" start10).2.2.1 (-1)
    (by omega) (by norm_num) (by norm_num [start10])).1
  have hun := (C10_sentinel_zero_and_negative fs10 "S" start10).2.2.2.1
  refine ⟨h0, by decide, ?_⟩
  rw [hneg, hun]
  decide


/-! ## Claims C1 and C2: backup generator -/

theorem isFileFS_iff (fs : FS) (p : RPath) :
    isFileFS fs p = true ↔ ∃ d, fs.findEntry p = some (.file d) := by
  unfold isFileFS
  rcases hf : fs.findEntry p with _ | e
  · simp
  · cases e <;> simp

theorem withFileName_eq (p : RPath) (hne : p.comps ≠ []) (fn : String) :
    p.withFileName fn = ⟨p.absolute, p.comps.dropLast ++ [fn]⟩ := by
  unfold RPath.withFileName
  rw [if_neg (by simp only [List.isEmpty_iff]; exact hne)]

theorem withFileName_facts (p : RPath) (hne : p.comps ≠ []) (fn : String) :
    (p.withFileName fn).parent? = some p.popLast ∧
    (p.withFileName fn).comps.length = p.comps.length := by
  rw [withFileName_eq p hne fn]
  constructor
  · unfold RPath.parent?
    rw [if_neg (by simp)]
    rw [List.dropLast_concat]
    rfl
  · have hpos : 0 < p.comps.length := List.length_pos.mpr hne
    simp only [List.length_append, List.length_dropLast, List.length_singleton]
    omega

theorem generate_some (fs : FS) (p : RPath) (dt : DT)
    (hfa : (isFileFS fs p && p.absolute) = true) (hne : p.comps ≠ []) :
    ∃ cand, generate_backup_path fs p dt = some cand ∧
      cand.parent? = some p.popLast ∧ cand.comps.length = p.comps.length := by
  obtain ⟨x, hx⟩ : ∃ x, p.comps.getLast? = some x := by
    rcases hgl : p.comps.getLast? with _ | x
    · exact absurd (List.getLast?_eq_none_iff.mp hgl) hne
    · exact ⟨x, rfl⟩
  have hstem : p.fileStem? = some (splitStemExt x).1 := by
    unfold RPath.fileStem? RPath.fileName?
    rw [hx]
    rfl
  unfold generate_backup_path label_file_name
  rw [hfa, hstem]
  dsimp only
  rcases hext : p.extension? with _ | e
  · exact ⟨_, rfl, (withFileName_facts p hne _).1, (withFileName_facts p hne _).2⟩
  · exact ⟨_, rfl, (withFileName_facts p hne _).1, (withFileName_facts p hne _).2⟩

theorem backupLoop_created (fs : FS) (p : RPath) :
    ∀ (times : List DT) (q : RPath) (fs1 : FS),
      backupLoop fs p times = .created q fs1 →
      fs.findEntry q = none ∧ fs1 = fs.insertEntry q (.file ⟨[], true⟩) ∧
      ∃ t ∈ times, generate_backup_path fs p t = some q := by
  intro times
  induction times with
  | nil =>
    intro q fs1 h
    simp [backupLoop] at h
  | cons t rest ih =>
    intro q fs1 h
    rw [backupLoop] at h
    rcases hg : generate_backup_path fs p t with _ | cand
    · rw [hg] at h
      exact absurd h (by simp)
    · rw [hg] at h
      dsimp only at h
      rcases hc : osCreateNew fs cand with ⟨r, fsx⟩
      rw [hc] at h
      cases r with
      | ok u =>
        cases u
        dsimp only at h
        have hq : cand = q := by
          cases h
          rfl
        have hfs : fsx = fs1 := by
          cases h
          rfl
        subst hq
        subst hfs
        obtain ⟨hnone, hins⟩ := osCreateNew_ok fs fsx cand hc
        exact ⟨hnone, hins, t, List.mem_cons_self t rest, hg⟩
      | error e =>
        dsimp only at h
        by_cases he : e = .alreadyExists
        · rw [if_pos he] at h
          obtain ⟨h1, h2, t', ht', h3⟩ := ih q fs1 h
          exact ⟨h1, h2, t', List.mem_cons_of_mem t ht', h3⟩
        · rw [if_neg he] at h
          exact absurd h (by simp)

theorem backup_ok_spec (fs : FS) (p : RPath) (times : List DT) (q : RPath)
    (fs' : FS) (h : safe_back_up_inner fs p times = .ok q fs') :
    isFileFS fs p = true ∧ p.absolute = true ∧ fs.findEntry q = none ∧ q ≠ p ∧
    fs'.findEntry q = fs.findEntry p ∧
    (∀ r, r ≠ q → fs'.findEntry r = fs.findEntry r) := by
  unfold safe_back_up_inner at h
  by_cases hguard : (isFileFS fs p && p.absolute) = true
  · rw [if_neg (by rw [hguard]; simp)] at h
    rcases hb : backupLoop fs p times with _ | _ | e | ⟨q0, fs1⟩
    · rw [hb] at h
      exact absurd h (by simp)
    · rw [hb] at h
      exact absurd h (by simp)
    · rw [hb] at h
      exact absurd h (by simp)
    · rw [hb] at h
      dsimp only at h
      rcases hcp : osCopy fs1 p q0 with ⟨r, fs2⟩
      rw [hcp] at h
      cases r with
      | error e =>
        dsimp only at h
        exact absurd h (by simp)
      | ok u =>
        cases u
        dsimp only at h
        have hq : q0 = q := by cases h; rfl
        subst hq
        have hfs : fs2 = fs' := by cases h; rfl
        subst hfs
        obtain ⟨hfile, habs⟩ : isFileFS fs p = true ∧ p.absolute = true := by
          simpa using hguard
        obtain ⟨hfresh, hfs1, -⟩ := backupLoop_created fs p times q0 fs1 hb
        obtain ⟨d0, hp0⟩ := (isFileFS_iff fs p).mp hfile
        have hqp : q0 ≠ p := by
          intro hqp
          rw [hqp, hp0] at hfresh
          cases hfresh
        obtain ⟨d, hp1, hread, hfs2⟩ := osCopy_ok fs1 fs2 p q0 hcp
        have hp2 : fs.findEntry p = some (.file d) := by
          rw [hfs1, findEntry_insert_ne _ _ _ _ hqp] at hp1
          exact hp1
        refine ⟨hfile, habs, hfresh, hqp, ?_, ?_⟩
        · rw [hfs2, findEntry_insert_self, hp2]
        · intro r hr
          rw [hfs2, findEntry_insert_ne _ _ _ _ (fun hh => hr hh.symm), hfs1,
            findEntry_insert_ne _ _ _ _ (fun hh => hr hh.symm)]
  · rw [Bool.not_eq_true] at hguard
    rw [if_pos (by rw [hguard]; simp)] at h
    exact absurd h (by simp)


theorem osCreateNew_at_candidate (fs : FS) (p cand : RPath)
    (hpar : cand.parent? = some p.popLast)
    (hres : resolvesAsDir fs p.popLast = true) :
    osCreateNew fs cand =
      (match fs.findEntry cand with
        | some _ => (.error .alreadyExists, fs)
        | none => (.ok (), fs.insertEntry cand (.file ⟨[], true⟩))) := by
  unfold osCreateNew
  rw [hpar]
  dsimp only
  rw [hres]
  rfl

theorem backupLoop_reaches (fs : FS) (p : RPath)
    (hfa : (isFileFS fs p && p.absolute) = true) (hne : p.comps ≠ [])
    (hres : resolvesAsDir fs p.popLast = true) :
    ∀ times : List DT,
      (∃ t ∈ times, ∃ c0, generate_backup_path fs p t = some c0 ∧
        fs.findEntry c0 = none) →
      ∃ q fs1, backupLoop fs p times = .created q fs1 ∧
        q.parent? = some p.popLast ∧ q.comps.length = p.comps.length := by
  intro times
  induction times with
  | nil =>
    rintro ⟨t, ht, -⟩
    simp at ht
  | cons t rest ih =>
    rintro ⟨t', ht', c0, hg', hfind'⟩
    obtain ⟨cand, hg, hpar, hlen⟩ := generate_some fs p t hfa hne
    rw [backupLoop, hg]
    dsimp only
    rw [osCreateNew_at_candidate fs p cand hpar hres]
    rcases hfind : fs.findEntry cand with _ | e
    · exact ⟨cand, _, rfl, hpar, hlen⟩
    · dsimp only
      rw [if_pos rfl]
      apply ih
      rcases List.mem_cons.mp ht' with rfl | hmem
      · rw [hg] at hg'
        cases hg'
        rw [hfind] at hfind'
        cases hfind'
      · exact ⟨t', hmem, c0, hg', hfind'⟩


/-- C1: `safe_back_up` on an existing absolute file returns `Ok(q)` with
`q ≠ p`, where `q` did not exist before the call, afterwards holds
byte-identical contents to `p`, and `p` itself is unchanged; a call on a
path that is not an existing file or not absolute panics (failed
`assert!`) instead of proceeding.  Success is guaranteed whenever the
file is readable, its directory resolves, and some clock reading yields
a collision-free candidate. -/
theorem C1_safe_back_up (fs : FS) (p : RPath) (times : List DT) :
    (¬(isFileFS fs p = true ∧ p.absolute = true) →
      safe_back_up fs p times = .panic) ∧
    (∀ q fs', safe_back_up fs p times = .ok q fs' →
      q ≠ p ∧ fs.findEntry q = none ∧
      fs'.findEntry q = fs.findEntry p ∧ fs'.findEntry p = fs.findEntry p) ∧
    (∀ d, fs.findEntry p = some (.file d) → p.absolute = true →
      d.readable = true → p.comps ≠ [] → resolvesAsDir fs p.popLast = true →
      (∃ t ∈ times, ∃ c0, generate_backup_path fs p t = some c0 ∧
        fs.findEntry c0 = none) →
      ∃ q fs', safe_back_up fs p times = .ok q fs') := by
  refine ⟨?_, ?_, ?_⟩
  · intro hnot
    unfold safe_back_up safe_back_up_inner
    rw [if_pos]
    rcases hf : isFileFS fs p
    · simp
    · rcases ha : p.absolute
      · simp
      · exact absurd ⟨hf, ha⟩ hnot
  · intro q fs' h
    obtain ⟨hfile, -, hfresh, hqp, hq, hframe⟩ := backup_ok_spec fs p times q fs' h
    exact ⟨hqp, hfresh, hq, hframe p (fun hh => hqp hh.symm)⟩
  · intro d hp habs hread hne hres hfresh
    have hfile : isFileFS fs p = true := (isFileFS_iff fs p).mpr ⟨d, hp⟩
    have hfa : (isFileFS fs p && p.absolute) = true := by rw [hfile, habs]; rfl
    obtain ⟨q, fs1, hloop, hqpar, hqlen⟩ :=
      backupLoop_reaches fs p hfa hne hres times hfresh
    obtain ⟨hqfresh, hfs1, -⟩ := backupLoop_created fs p times q fs1 hloop
    have hqp : q ≠ p := by
      intro hh
      rw [hh, hp] at hqfresh
      cases hqfresh
    have hp1 : fs1.findEntry p = some (.file d) := by
      rw [hfs1, findEntry_insert_ne _ _ _ _ hqp]
      exact hp
    have hq1 : fs1.findEntry q = some (.file ⟨[], true⟩) := by
      rw [hfs1]
      exact findEntry_insert_self _ _ _
    have hres1 : resolvesAsDir fs1 p.popLast = true := by
      by_cases hemp : p.popLast.comps.isEmpty
      · simp [resolvesAsDir, hemp]
      · have hplen : 0 < p.comps.length := List.length_pos.mpr hne
        have hpll : p.popLast.comps.length = p.comps.length - 1 := by
          simp [RPath.popLast]
        have hnq : q ≠ p.popLast := by
          intro hh
          rw [hh, hpll] at hqlen
          omega
        unfold resolvesAsDir isDirFS at hres ⊢
        rw [hfs1, findEntry_insert_ne _ _ _ _ hnq]
        exact hres
    have hcopy : osCopy fs1 p q = (.ok (), fs1.insertEntry q (.file d)) := by
      unfold osCopy
      rw [hp1]
      dsimp only
      rw [hread]
      simp only [Bool.not_true, Bool.false_eq_true, if_false]
      rw [hqpar]
      dsimp only
      rw [hres1]
      simp only [Bool.not_true, Bool.false_eq_true, if_false]
      rw [hq1]
    refine ⟨q, fs1.insertEntry q (.file d), ?_⟩
    unfold safe_back_up safe_back_up_inner
    rw [if_neg (by rw [hfa]; simp)]
    rw [hloop]
    dsimp only
    rw [hcopy]

/-- Witness for C1: a concrete backup run, plus the panic on a missing
source. -/
theorem C1_witness :
    safe_back_up fsB1 pB [dtW6] = .ok qB fsB1' ∧
    qB ≠ pB ∧ fsB1.findEntry qB = none ∧
    fsB1'.findEntry qB = fsB1.findEntry pB ∧
    fsB1'.findEntry pB = fsB1.findEntry pB ∧
    safe_back_up [] pB [dtW6] = .panic := by
  have hrun : safe_back_up fsB1 pB [dtW6] = .ok qB fsB1' := by
    with_unfolding_all decide
  have h2 := (C1_safe_back_up fsB1 pB [dtW6]).2.1 qB fsB1' hrun
  have hp := (C1_safe_back_up ([] : FS) pB [dtW6]).1 (by decide)
  exact ⟨hrun, h2.1, h2.2.1, h2.2.2.1, h2.2.2.2, hp⟩

/-- C2: in the backup retry loop, an `AlreadyExists` failure of the
exclusive create makes the loop continue with the candidate regenerated
from the next clock reading; a successful exclusive create ends the
loop with that candidate; any created candidate was free (the exclusive
create is the sole existence check); any other I/O error is returned
with the filesystem unchanged and no copy performed; and two successive
calls end with distinct backup names, neither overwriting the other's
backup nor the original. -/
theorem C2_backup_collision_retry (fs : FS) (p : RPath) :
    (∀ t rest cand, generate_backup_path fs p t = some cand →
      (osCreateNew fs cand).1 = .error .alreadyExists →
      backupLoop fs p (t :: rest) = backupLoop fs p rest) ∧
    (∀ t rest cand fs1, generate_backup_path fs p t = some cand →
      osCreateNew fs cand = (.ok (), fs1) →
      backupLoop fs p (t :: rest) = .created cand fs1) ∧
    (∀ times q fs1, backupLoop fs p times = .created q fs1 →
      fs.findEntry q = none) ∧
    (∀ t rest cand e, generate_backup_path fs p t = some cand →
      (osCreateNew fs cand).1 = .error e → e ≠ .alreadyExists →
      backupLoop fs p (t :: rest) = .ioErr e ∧
      ((isFileFS fs p && p.absolute) = true →
        safe_back_up_inner fs p (t :: rest) = .err e fs)) ∧
    (∀ times1 times2 q1 q2 fs1 fs2,
      safe_back_up_inner fs p times1 = .ok q1 fs1 →
      safe_back_up_inner fs1 p times2 = .ok q2 fs2 →
      q1 ≠ q2 ∧ fs2.findEntry q1 = fs1.findEntry q1 ∧
      fs2.findEntry p = fs1.findEntry p) := by
  refine ⟨?_, ?_, ?_, ?_, ?_⟩
  · intro t rest cand hg hc1
    rw [backupLoop, hg]
    dsimp only
    rcases hc : osCreateNew fs cand with ⟨r, fsx⟩
    rw [hc] at hc1
    dsimp only at hc1
    subst hc1
    dsimp only
    rw [if_pos rfl]
  · intro t rest cand fs1 hg hc
    rw [backupLoop, hg]
    dsimp only
    rw [hc]
  · exact fun times q fs1 h => (backupLoop_created fs p times q fs1 h).1
  · intro t rest cand e hg hc1 he
    have hloop : backupLoop fs p (t :: rest) = .ioErr e := by
      rw [backupLoop, hg]
      dsimp only
      rcases hc : osCreateNew fs cand with ⟨r, fsx⟩
      rw [hc] at hc1
      dsimp only at hc1
      subst hc1
      dsimp only
      rw [if_neg he]
    refine ⟨hloop, ?_⟩
    intro hfa
    unfold safe_back_up_inner
    rw [if_neg (by rw [hfa]; simp)]
    rw [hloop]
  · intro times1 times2 q1 q2 fs1 fs2 h1 h2
    obtain ⟨hfile1, -, hfresh1, hq1p, hcopy1, hframe1⟩ :=
      backup_ok_spec fs p times1 q1 fs1 h1
    obtain ⟨hfile2, -, hfresh2, hq2p, hcopy2, hframe2⟩ :=
      backup_ok_spec fs1 p times2 q2 fs2 h2
    obtain ⟨d, hp⟩ := (isFileFS_iff fs p).mp hfile1
    have hq1some : fs1.findEntry q1 = some (.file d) := by
      rw [hcopy1, hp]
    have hne12 : q1 ≠ q2 := by
      intro hh
      rw [hh, hfresh2] at hq1some
      cases hq1some
    exact ⟨hne12, hframe2 q1 hne12, hframe2 p (fun hh => hq2p hh.symm)⟩

/-- Witness for C2: a concrete collision retried to the next
millisecond, and two successive backups with distinct names. -/
theorem C2_witness :
    backupLoop fsBcol pB [dtW6, dtB2] = backupLoop fsBcol pB [dtB2] ∧
    safe_back_up_inner fsB1 pB [dtW6] = .ok qB fsB1' ∧
    safe_back_up_inner fsB1' pB [dtW6, dtB2] = .ok qB2 fsB2' ∧
    qB ≠ qB2 ∧ fsB2'.findEntry qB = fsB1'.findEntry qB ∧
    fsB2'.findEntry pB = fsB1'.findEntry pB := by
  have hcol := (C2_backup_collision_retry fsBcol pB).1 dtW6 [dtB2] qB
    (by with_unfolding_all decide) (by with_unfolding_all decide)
  have hrun1 : safe_back_up_inner fsB1 pB [dtW6] = .ok qB fsB1' := by
    with_unfolding_all decide
  have hrun2 : safe_back_up_inner fsB1' pB [dtW6, dtB2] = .ok qB2 fsB2' := by
    with_unfolding_all decide
  have hdist := (C2_backup_collision_retry fsB1 pB).2.2.2.2 [dtW6] [dtW6, dtB2]
    qB qB2 fsB1' fsB2' hrun1 hrun2
  exact ⟨hcol, hrun1, hrun2, hdist.1, hdist.2.1, hdist.2.2⟩

end Joatmon
